import Mathlib

/-!
# client-server-api: quote relay with per-stage deadlines

A shallow embedding of `service/server.go` and `client/client.go`.

* Text is `String`; JSON text is scanned as `List Char` (the code points of a
  valid UTF-8 body).
* Time is a `Nat` count of nanoseconds, as `time.Duration` is.
* Everything the two programs do not decide themselves is an explicit input:
  what the quote source answers and when, when the inbound request is
  cancelled, how long the process is delayed between two statements, whether
  the sink or the file system reports a fault.
* The library routines the programs call (`encoding/json`, `context`,
  `net/http`, `database/sql` over SQLite, `os`) are modelled by their
  documented behaviour, next to the place that uses them.
* The JSON scanner recurses on a fuel counter; `readValue_fuel` shows that the
  fuel it is given is never the reason for a failure.
* A REAL column holds a double. Which double the engine makes of a numeric
  text is a field of the sink, `toReal`, and no theorem depends on it.
-/

namespace CotacaoAPI

/-! ## encoding/json: values and the scanner -/

/-- A JSON value as the scanner of `encoding/json` delimits it. A number keeps
its literal text: neither program stores a number anywhere. -/
inductive JSON where
  | null
  | bool (b : Bool)
  | num (lit : List Char)
  | str (s : List Char)
  | arr (items : List JSON)
  | obj (members : List (List Char × JSON))

/-- The four bytes `isSpace` of the scanner accepts between tokens. -/
def isSpace (c : Char) : Bool :=
  c = ' ' || c = '\t' || c = '\r' || c = '\n'

/-- Drop leading white space. -/
def skipSpace : List Char → List Char
  | [] => []
  | c :: cs => if isSpace c then skipSpace cs else c :: cs

/-- Value of one hexadecimal digit, either case, as `getu4` reads it. -/
def hexVal (c : Char) : Option Nat :=
  let n := c.toNat
  if 48 ≤ n ∧ n ≤ 57 then some (n - 48)
  else if 97 ≤ n ∧ n ≤ 102 then some (n - 87)
  else if 65 ≤ n ∧ n ≤ 70 then some (n - 55)
  else none

/-- The number written by four hexadecimal digits (`getu4` after the `\u`). -/
def getu4 (a b c d : Char) : Option Nat :=
  match hexVal a, hexVal b, hexVal c, hexVal d with
  | some x, some y, some z, some w => some (((x * 16 + y) * 16 + z) * 16 + w)
  | _, _, _, _ => none

/-- The character a one-letter escape stands for (`unquote`'s switch). -/
def unescape (e : Char) : Option Char :=
  if e = '"' then some '"'
  else if e = '\\' then some '\\'
  else if e = '/' then some '/'
  else if e = 'b' then some (Char.ofNat 8)
  else if e = 'f' then some (Char.ofNat 12)
  else if e = 'n' then some '\n'
  else if e = 'r' then some '\r'
  else if e = 't' then some '\t'
  else none

/-- The replacement character U+FFFD. -/
def replacementChar : Char := Char.ofNat 0xFFFD

/-- Range test of `utf16.IsSurrogate`. -/
def isSurrogate (u : Nat) : Bool := 0xD800 ≤ u && u < 0xE000

/-- The code point of a surrogate pair (`utf16.DecodeRune`), when `hi` is a
high and `lo` a low surrogate. -/
def decodeSurrogates (hi lo : Nat) : Option Char :=
  if 0xD800 ≤ hi ∧ hi < 0xDC00 ∧ 0xDC00 ≤ lo ∧ lo < 0xE000 then
    some (Char.ofNat (0x10000 + (hi - 0xD800) * 0x400 + (lo - 0xDC00)))
  else none

/-- Put a character in front of the text of a scanned string. -/
def pushChar (c : Char) (r : List Char × List Char) : List Char × List Char :=
  (c :: r.1, r.2)

/-- The low half of a surrogate pair, when the text goes on with a `\u` escape. -/
def nextLow (hi : Nat) (cs : List Char) : Option (Char × List Char) :=
  match cs with
  | b :: u :: e :: f :: g :: h :: rest =>
    if b = '\\' ∧ u = 'u' then
      match getu4 e f g h with
      | some lo => (decodeSurrogates hi lo).map fun ch => (ch, rest)
      | none => none
    else none
  | _ => none

/-- Scan a string literal after its opening quote and unquote it: the text of the
string and what follows the closing quote. A raw control character, an unknown
escape or a missing closing quote is a syntax error (`none`). A `\u` escape
that is half of a surrogate pair without its other half becomes U+FFFD. The
fuel is the number of characters that may still be read. -/
def parseString : Nat → List Char → Option (List Char × List Char)
  | 0, _ => none
  | _ + 1, [] => none
  | fuel + 1, c :: cs =>
    if c = '"' then some ([], cs)
    else if c = '\\' then
      match cs with
      | [] => none
      | e :: r =>
        if e = 'u' then
          match r with
          | a :: b :: c2 :: d :: r2 =>
            match getu4 a b c2 d with
            | none => none
            | some u =>
              if isSurrogate u then
                match nextLow u r2 with
                | some (ch, r3) => (parseString fuel r3).map (pushChar ch)
                | none => (parseString fuel r2).map (pushChar replacementChar)
              else (parseString fuel r2).map (pushChar (Char.ofNat u))
          | _ => none
        else
          match unescape e with
          | some ch => (parseString fuel r).map (pushChar ch)
          | none => none
    else if c.toNat < 0x20 then none
    else (parseString fuel cs).map (pushChar c)

/-- A decimal digit. -/
def isDigit (c : Char) : Bool := 48 ≤ c.toNat && c.toNat ≤ 57

/-- Split off the longest run of decimal digits. -/
def spanDigits : List Char → List Char × List Char
  | [] => ([], [])
  | c :: cs =>
    if isDigit c then ((spanDigits cs).1.cons c, (spanDigits cs).2) else ([], c :: cs)

/-- The optional fraction of a number: a dot and at least one digit. -/
def scanFraction (cs : List Char) : Option (List Char × List Char) :=
  match cs with
  | c :: r =>
    if c = '.' then
      match spanDigits r with
      | ([], _) => none
      | (ds, r2) => some (c :: ds, r2)
    else some ([], cs)
  | [] => some ([], [])

/-- The optional exponent of a number: `e` or `E`, an optional sign and at
least one digit. -/
def scanExponent (cs : List Char) : Option (List Char × List Char) :=
  match cs with
  | c :: r =>
    if c = 'e' ∨ c = 'E' then
      match r with
      | s :: r2 =>
        if s = '+' ∨ s = '-' then
          match spanDigits r2 with
          | ([], _) => none
          | (ds, r3) => some (c :: s :: ds, r3)
        else
          match spanDigits r with
          | ([], _) => none
          | (ds, r3) => some (c :: ds, r3)
      | [] => none
    else some ([], cs)
  | [] => some ([], [])

/-- The integer part of a number: a single `0`, or a non-zero digit and the
digits after it. -/
def scanInteger (cs : List Char) : Option (List Char × List Char) :=
  match cs with
  | c :: r =>
    if c = '0' then some ([c], r)
    else if isDigit c then some (c :: (spanDigits r).1, (spanDigits r).2)
    else none
  | [] => none

/-- Scan a number literal: its text and what follows it. -/
def scanNumber (cs : List Char) : Option (List Char × List Char) :=
  let signed : List Char × List Char :=
    match cs with
    | c :: r => if c = '-' then ([c], r) else ([], cs)
    | [] => ([], [])
  match scanInteger signed.2 with
  | none => none
  | some (ip, r1) =>
    match scanFraction r1 with
    | none => none
    | some (fp, r2) =>
      match scanExponent r2 with
      | none => none
      | some (ep, r3) => some (signed.1 ++ ip ++ fp ++ ep, r3)

/-- Strip a literal word from the front of the input. -/
def stripWord : List Char → List Char → Option (List Char)
  | [], cs => some cs
  | _ :: _, [] => none
  | w :: ws, c :: cs => if w = c then stripWord ws cs else none

/-- The constant `maxNestingDepth` of the scanner: the number of objects and
arrays that may be open at once. -/
def maxNestingDepth : Nat := 10000

mutual
/-- Scan one JSON value: the value and the input left after it. `depth` is the
number of objects and arrays that may still be opened; an opening bracket
beyond it is the scanner's error `exceeded max depth`. -/
def parseValue : Nat → Nat → List Char → Option (JSON × List Char)
  | 0, _, _ => none
  | fuel + 1, depth, cs =>
    match skipSpace cs with
    | [] => none
    | c :: r =>
      if c = '{' then
        if depth = 0 then none
        else
          match skipSpace r with
          | [] => none
          | c2 :: r2 =>
            if c2 = '}' then some (JSON.obj [], r2)
            else (parseMembers fuel (depth - 1) (c2 :: r2)).map fun p => (JSON.obj p.1, p.2)
      else if c = '[' then
        if depth = 0 then none
        else
          match skipSpace r with
          | [] => none
          | c2 :: r2 =>
            if c2 = ']' then some (JSON.arr [], r2)
            else (parseItems fuel (depth - 1) (c2 :: r2)).map fun p => (JSON.arr p.1, p.2)
      else if c = '"' then
        (parseString fuel r).map fun p => (JSON.str p.1, p.2)
      else if c = 't' then (stripWord "rue".data r).map fun r2 => (JSON.bool true, r2)
      else if c = 'f' then (stripWord "alse".data r).map fun r2 => (JSON.bool false, r2)
      else if c = 'n' then (stripWord "ull".data r).map fun r2 => (JSON.null, r2)
      else (scanNumber (c :: r)).map fun p => (JSON.num p.1, p.2)
/-- Scan the members of an object after its `{` or after a comma, up to and
including the closing `}`. -/
def parseMembers : Nat → Nat → List Char → Option (List (List Char × JSON) × List Char)
  | 0, _, _ => none
  | fuel + 1, depth, cs =>
    match skipSpace cs with
    | [] => none
    | q :: r =>
      if q = '"' then
        match parseString fuel r with
        | none => none
        | some (key, r1) =>
          match skipSpace r1 with
          | [] => none
          | colon :: r2 =>
            if colon = ':' then
              match parseValue fuel depth r2 with
              | none => none
              | some (v, r3) =>
                match skipSpace r3 with
                | [] => none
                | sep :: r4 =>
                  if sep = '}' then some ([(key, v)], r4)
                  else if sep = ',' then
                    (parseMembers fuel depth r4).map fun p => ((key, v) :: p.1, p.2)
                  else none
            else none
      else none
/-- Scan the items of an array after its `[` or after a comma, up to and
including the closing `]`. -/
def parseItems : Nat → Nat → List Char → Option (List JSON × List Char)
  | 0, _, _ => none
  | fuel + 1, depth, cs =>
    match parseValue fuel depth cs with
    | none => none
    | some (v, r) =>
      match skipSpace r with
      | [] => none
      | sep :: r2 =>
        if sep = ']' then some ([v], r2)
        else if sep = ',' then (parseItems fuel depth r2).map fun p => (v :: p.1, p.2)
        else none
end

/-- The value `[[...[]...]]` of `n + 1` arrays inside one another. -/
def nestedArrays : Nat → JSON
  | 0 => JSON.arr []
  | n + 1 => JSON.arr [nestedArrays n]

/-- What `Decoder.Decode` reads from a body: its first JSON value. Whatever
follows that value is left unread. `none` stands for every failure of the
scanner: an empty body, a truncated value, an invalid character, more than
`maxNestingDepth` objects and arrays inside one another. The fuel is more than
the scanner can use on a body of this length. -/
def readValue (body : List Char) : Option JSON :=
  (parseValue (2 * body.length + 1) maxNestingDepth body).map Prod.fst

/-! ## encoding/json: storing a value in the structs of the two programs -/

/-- The three ways `Decode` fails: the reader it reads the body from fails
(`Decode` hands that error on), the body is not JSON text, or it holds a
value of a JSON type that the Go field cannot store. -/
inductive JSONError where
  | read (cause : String)
  | malformed
  | mismatch
deriving DecidableEq, Repr

/-- The text of the error of `Decode`: that of the reader for a failed read,
and for the errors of the JSON library the text `libText` the library gives
them. -/
def JSONError.text (libText : JSONError → String) : JSONError → String
  | JSONError.read cause => cause
  | e => libText e

deriving instance DecidableEq for Except

/-- The struct `CurrencyResponse` of both programs: one field, tagged `bid`. -/
structure CurrencyResponse where
  Bid : String
deriving DecidableEq, Repr

/-- The struct `APIResponse` of the server: one field, tagged `USDBRL`. -/
structure APIResponse where
  USDBRL : CurrencyResponse
deriving DecidableEq, Repr

/-- The representative of a character when member names are compared: letters
compare without case, and the two non-ASCII characters that fold to an ASCII
letter (U+017F to `S`, U+212A to `K`) do so here. No other character folds to
an ASCII letter, and the field names of the programs are ASCII letters only. -/
def foldRune (c : Char) : Char :=
  if 97 ≤ c.toNat ∧ c.toNat ≤ 122 then Char.ofNat (c.toNat - 32)
  else if c.toNat = 0x17F then 'S'
  else if c.toNat = 0x212A then 'K'
  else c

/-- Whether an object member named `key` is stored in the field tagged `tag`:
the names are equal, or equal after folding. -/
def fieldMatches (tag : String) (key : List Char) : Bool :=
  key.map foldRune = tag.data.map foldRune

/-- A struct under decoding, and whether no type error has been saved so far.
A type error does not stop the decoder: it is saved and returned at the end. -/
abbrev Decoding (α : Type) := α × Bool

/-- Whether a JSON value can be stored in a Go string: a string or `null`. -/
def storableInString : JSON → Bool
  | JSON.str _ => true
  | JSON.null => true
  | _ => false

/-- Store one object member in a `CurrencyResponse`: a string member named
`bid` sets the field, a `null` leaves it, a value of another type is a type
error, a member of another name is skipped. -/
def storeCurrencyMember (st : Decoding CurrencyResponse) (m : List Char × JSON) :
    Decoding CurrencyResponse :=
  if fieldMatches "bid" m.1 then
    match m.2 with
    | JSON.str s => ({ Bid := String.mk s }, st.2)
    | JSON.null => st
    | _ => (st.1, false)
  else st

/-- Store a JSON value in a `CurrencyResponse`: an object member by member in
the order of the text, `null` as nothing, anything else as a type error. -/
def storeCurrency (st : Decoding CurrencyResponse) : JSON → Decoding CurrencyResponse
  | JSON.obj ms => ms.foldl storeCurrencyMember st
  | JSON.null => st
  | _ => (st.1, false)

/-- Store one object member in an `APIResponse`. -/
def storeAPIMember (st : Decoding APIResponse) (m : List Char × JSON) : Decoding APIResponse :=
  if fieldMatches "USDBRL" m.1 then
    let inner := storeCurrency (st.1.USDBRL, st.2) m.2
    ({ USDBRL := inner.1 }, inner.2)
  else st

/-- Store a JSON value in an `APIResponse`. -/
def storeAPI (st : Decoding APIResponse) : JSON → Decoding APIResponse
  | JSON.obj ms => ms.foldl storeAPIMember st
  | JSON.null => st
  | _ => (st.1, false)

/-- Whether a JSON value is stored in a `CurrencyResponse` without a type
error: it is `null`, or an object in which every member named `bid` is a
string or `null`. -/
def storableInCurrency : JSON → Bool
  | JSON.null => true
  | JSON.obj ms => ms.all fun m => !fieldMatches "bid" m.1 || storableInString m.2
  | _ => false

/-- Whether a JSON value is stored in an `APIResponse` without a type error:
it is `null`, or an object in which every member named `USDBRL` can be stored
in a `CurrencyResponse`. -/
def storableInAPI : JSON → Bool
  | JSON.null => true
  | JSON.obj ms => ms.all fun m => !fieldMatches "USDBRL" m.1 || storableInCurrency m.2
  | _ => false

/-- The call `json.NewDecoder(body).Decode(&data)` of the client, on a zero
`CurrencyResponse`. -/
def decodeCurrencyResponse (body : String) : Except JSONError CurrencyResponse :=
  match readValue body.data with
  | none => Except.error JSONError.malformed
  | some v =>
    let r := storeCurrency ({ Bid := "" }, true) v
    if r.2 then Except.ok r.1 else Except.error JSONError.mismatch

/-- The call `json.NewDecoder(body).Decode(&apiResponse)` of the server, on a
zero `APIResponse`. -/
def decodeAPIResponse (body : String) : Except JSONError APIResponse :=
  match readValue body.data with
  | none => Except.error JSONError.malformed
  | some v =>
    let r := storeAPI ({ USDBRL := { Bid := "" } }, true) v
    if r.2 then Except.ok r.1 else Except.error JSONError.mismatch

/-! ## encoding/json: Marshal of a map of strings -/

/-- One lower-case hexadecimal digit. -/
def hexDigit (n : Nat) : Char :=
  if n < 10 then Char.ofNat (48 + n) else Char.ofNat (87 + n)

/-- The text `json.Marshal` writes for one character of a string: the quote and
the backslash behind a backslash, the control characters as their short escape
or as `\u00XX`, the characters `<`, `>` and `&` as `\u00XX` (Marshal escapes
for HTML), U+2028 and U+2029 as `\u2028` and `\u2029`, every other character
as itself. -/
def escapeChar (c : Char) : List Char :=
  let n := c.toNat
  if c = '"' ∨ c = '\\' then ['\\', c]
  else if n = 8 then ['\\', 'b']
  else if n = 12 then ['\\', 'f']
  else if c = '\n' then ['\\', 'n']
  else if c = '\r' then ['\\', 'r']
  else if c = '\t' then ['\\', 't']
  else if n < 0x20 ∨ c = '<' ∨ c = '>' ∨ c = '&' then
    ['\\', 'u', '0', '0', hexDigit (n / 16), hexDigit (n % 16)]
  else if n = 0x2028 ∨ n = 0x2029 then
    ['\\', 'u', '2', '0', '2', hexDigit (n % 16)]
  else [c]

/-- The string literal `json.Marshal` writes for a string. -/
def appendString (s : List Char) : List Char :=
  '"' :: (s.flatMap escapeChar ++ ['"'])

/-- The bytes of `json.Marshal(map[string]string{"bid": bid})`. Marshal cannot
fail on a map of strings, so its error is always nil. -/
def marshalBid (bid : String) : Except String String :=
  Except.ok (String.mk ("\x7b".data ++ appendString "bid".data ++ ":".data ++
    appendString bid.data ++ "\x7d".data))

/-! ## context: deadline scopes -/

/-- The two errors of a finished context. -/
inductive CtxErr where
  | canceled
  | deadlineExceeded
deriving DecidableEq, Repr

/-- The text of a context error. -/
def CtxErr.text : CtxErr → String
  | CtxErr.canceled => "context canceled"
  | CtxErr.deadlineExceeded => "context deadline exceeded"

/-- A context, by how it was derived. `cancelAt` is the instant at which the
cancel function of a cancellable context is called from outside the code under
study (for the inbound request: the caller disconnects), if ever. -/
inductive Context where
  | background
  | withCancel (parent : Context) (cancelAt : Option Nat)
  | withDeadline (parent : Context) (deadline : Nat)
deriving DecidableEq, Repr

/-- The earlier of two ways for a context to finish; the first one on a tie. -/
def earlier : Option (Nat × CtxErr) → Option (Nat × CtxErr) → Option (Nat × CtxErr)
  | some a, some b => if a.1 ≤ b.1 then some a else some b
  | some a, none => some a
  | none, b => b

/-- The instant at which a context becomes done and the error it then has. A
derived context is done as soon as its parent is, with the error of the parent;
when parent and child finish at the same instant the parent is taken. -/
def Context.doneAt : Context → Option (Nat × CtxErr)
  | Context.background => none
  | Context.withCancel p c => earlier p.doneAt (c.map fun t => (t, CtxErr.canceled))
  | Context.withDeadline p d => earlier p.doneAt (some (d, CtxErr.deadlineExceeded))

/-- The value of `ctx.Err()` at an instant: nil until the context is done. -/
def Context.err (ctx : Context) (now : Nat) : Option CtxErr :=
  match ctx.doneAt with
  | some (t, e) => if t ≤ now then some e else none
  | none => none

/-- Whether `<-ctx.Done()` is ready at an instant. -/
def Context.isDone (ctx : Context) (now : Nat) : Bool :=
  (ctx.err now).isSome

/-- The call `context.WithTimeout(parent, d)` made at instant `now`. -/
def withTimeout (parent : Context) (now d : Nat) : Context :=
  Context.withDeadline parent (now + d)

/-- One millisecond, in nanoseconds. -/
def millisecond : Nat := 1000000

/-! ## net/http: the outbound call and the response writer -/

/-- What a server sends back: status code and body. -/
structure Answer where
  status : Nat
  body : String
  /-- Time between the arrival of status and headers, where `client.Do`
  returns, and the arrival of the last byte of the body that `Decode` needs. -/
  bodyAfter : Nat
  /-- The error that breaks the body off before `Decode` has read its value
  (connection reset, short body), if any. -/
  bodyFault : Option String
deriving DecidableEq, Repr

/-- What the remote end of an outbound call does, and how long after the call
was issued: it fails (connection refused, reset, DNS), or it answers. -/
inductive Upstream where
  | fails (after : Nat) (cause : String)
  | answers (after : Nat) (a : Answer)
deriving DecidableEq, Repr

/-- How long the remote end takes. -/
def Upstream.after : Upstream → Nat
  | Upstream.fails t _ => t
  | Upstream.answers t _ => t

/-- What `client.Do` returns if the context stays open until the remote end
is through: its answer, or the text of the transport error. -/
def Upstream.result : Upstream → Except String Answer
  | Upstream.fails _ cause => Except.error cause
  | Upstream.answers _ a => Except.ok a

/-- The call `client.Do(req)` for a GET request bound to `ctx`, issued at
`now`: the result and the instant at which the call returns. If the context is
done when the remote end would be through, the call is aborted at the instant the
context is done (at once, if it was done already) and returns the error of the
context, wrapped with the method and the URL. -/
def clientDo (url : String) (ctx : Context) (now : Nat) (up : Upstream) :
    Except String Answer × Nat :=
  match ctx.doneAt with
  | some (t, e) =>
    if t ≤ now + up.after then (Except.error ("Get \"" ++ url ++ "\": " ++ e.text), max now t)
    else (up.result, now + up.after)
  | none => (up.result, now + up.after)

/-- Reading `resp.Body`, as `Decode` does, from instant `now` on: the body and
the instant at which it is read. The body of a request bound to `ctx` is read
under `ctx`: if the context is done when the body would be complete, the read
fails with the error of the context at the instant the context is done (at
once, if it was done already). -/
def readBody (ctx : Context) (now : Nat) (a : Answer) : Except String String × Nat :=
  match ctx.doneAt with
  | some (t, e) =>
    if t ≤ now + a.bodyAfter then (Except.error e.text, max now t)
    else
      match a.bodyFault with
      | some cause => (Except.error cause, now + a.bodyAfter)
      | none => (Except.ok a.body, now + a.bodyAfter)
  | none =>
    match a.bodyFault with
    | some cause => (Except.error cause, now + a.bodyAfter)
    | none => (Except.ok a.body, now + a.bodyAfter)

/-- What a handler has written to its `http.ResponseWriter`. -/
structure Response where
  status : Nat
  header : List (String × String)
  body : String
deriving DecidableEq, Repr

/-- The reply `http.Error(w, msg, code)` writes: a plain-text body holding the
message and a line feed. -/
def httpError (msg : String) (code : Nat) : Response :=
  { status := code
    header := [("Content-Type", "text/plain; charset=utf-8"), ("X-Content-Type-Options", "nosniff")]
    body := msg ++ "\n" }

/-- The call `http.NewRequestWithContext(ctx, "GET", url, nil)`. It fails for
an invalid method, a nil context or an address that is not a URL; with the
method and the addresses of the two programs it returns the request. -/
def newRequest (url : String) : Except String String :=
  Except.ok url

/-- The error `fetchBid` returns, by the statement that builds it. -/
inductive FetchError where
  | request (cause : String)
  | transport (cause : String)
  | status (code : Nat)
  | decode (e : JSONError)
deriving DecidableEq, Repr

/-- What a call of `fetchBid` comes to: the pair it returns, the instant at
which it returns and the lines it logs. -/
structure Fetched where
  result : Except FetchError String
  finished : Nat
  log : List String
deriving DecidableEq

/-! ## database/sql over SQLite: the durable sink -/

/-- A value stored in a column. A REAL is an IEEE double, kept by its 64
bits. -/
inductive SqlValue where
  | null
  | real (bits : Nat)
  | text (s : String)
deriving DecidableEq, Repr

/-- A row of the table `currency`. -/
structure Row where
  id : Nat
  bid : SqlValue
  created_at : Nat
deriving DecidableEq

/-- A statement handed to `db.Exec`, with its arguments. -/
structure Statement where
  query : String
  args : List String
deriving DecidableEq, Repr

/-- The database behind the handle `db`: the rows of the table `currency` when
the table exists, the last id handed out by AUTOINCREMENT, the statements
executed so far, oldest first, and the double the engine converts a numeric
text to. That conversion is the engine's own: which double it picks for a
text (how it rounds, where it overflows to infinity) is not modelled, and
every theorem holds for whatever it picks. -/
structure Sink where
  currency : Option (List Row)
  lastId : Nat
  journal : List Statement
  toReal : String → Nat

/-- White space for SQLite: space, tab, line feed, vertical tab, form feed,
carriage return. -/
def isSqlSpace (c : Char) : Bool :=
  c = ' ' || (9 ≤ c.toNat && c.toNat ≤ 13)

/-- Whether an exponent part is well formed: nothing, or `e`/`E`, an optional
sign and at least one digit. With it, the rest of the text. -/
def sqlExponent (cs : List Char) : Option (List Char) :=
  match cs with
  | c :: r =>
    if c = 'e' ∨ c = 'E' then
      let unsigned : List Char :=
        match r with
        | s :: r2 => if s = '-' ∨ s = '+' then r2 else r
        | [] => []
      match spanDigits unsigned with
      | ([], _) => none
      | (_, r3) => some r3
    else some cs
  | [] => some []

/-- Whether the whole text is a well-formed numeric literal for SQLite:
optional white space, an optional sign, digits with an optional decimal point
(at least one digit in all), an optional exponent, optional white space. -/
def sqlNumeric (s : List Char) : Bool :=
  let s1 := s.dropWhile isSqlSpace
  let unsigned : List Char :=
    match s1 with
    | c :: r => if c = '-' ∨ c = '+' then r else s1
    | [] => []
  let ip := spanDigits unsigned
  let fp : List Char × List Char :=
    match ip.2 with
    | c :: r => if c = '.' then spanDigits r else ([], ip.2)
    | [] => ([], [])
  if ip.1.length + fp.1.length = 0 then false
  else
    match sqlExponent fp.2 with
    | none => false
    | some rest => rest.dropWhile isSqlSpace = []

/-- What a column of REAL affinity stores when a text is bound to it: the
double the engine converts the text to, if the text is a well-formed numeric
literal, and the text otherwise. -/
def realAffinity (toReal : String → Nat) (s : String) : SqlValue :=
  if sqlNumeric s.data then SqlValue.real (toReal s) else SqlValue.text s

/-- The statement of `saveBid`. -/
def insertStatement : String := "INSERT INTO currency (bid) VALUES (?)"

/-- The call `db.Exec` of `saveBid` at instant `now`: one row is appended, with
the next id, the bid as the REAL column stores it and the instant as
timestamp. It fails, adding nothing, when the sink reports a fault or the
table does not exist. -/
def execInsert (fault : Option String) (now : Nat) (bid : String) (db : Sink) :
    Option String × Sink :=
  let db1 : Sink := { db with journal := db.journal ++ [{ query := insertStatement, args := [bid] }] }
  match fault with
  | some e => (some e, db1)
  | none =>
    match db.currency with
    | none => (some "no such table: currency", db1)
    | some rows =>
      (none, { db1 with
        currency := some (rows ++ [{ id := db.lastId + 1, bid := realAffinity db.toReal bid, created_at := now }])
        lastId := db.lastId + 1 })

/-- The rows of the table, none when there is no table. -/
def Sink.rows (db : Sink) : List Row := db.currency.getD []

namespace Server

/-- The constant `timeoutMaxCallTheDollarQuoteAPI`. -/
def timeoutMaxCallTheDollarQuoteAPI : Nat := 200 * millisecond

/-- The constant `timeoutMaxPersistDataBase`. -/
def timeoutMaxPersistDataBase : Nat := 10 * millisecond

/-- The address of the quote source. -/
def sourceURL : String := "https://economia.awesomeapi.com.br/json/last/USD-BRL"

/-- The text of the error of `fetchBid`, as `%v` prints it. `libText` is the
text the JSON library gives its own errors. -/
def errorText (libText : JSONError → String) : FetchError → String
  | FetchError.request cause => "erro ao criar requisição HTTP: " ++ cause
  | FetchError.transport cause => "errr when making http request: " ++ cause
  | FetchError.status code => "error in http response: status " ++ toString code
  | FetchError.decode e => "error when decoding JSON: " ++ e.text libText

/-- The function `fetchBid` of the server, called at `now`. -/
def fetchBid (ctx : Context) (now : Nat) (up : Upstream) : Fetched :=
  match newRequest sourceURL with
  | Except.error cause =>
    { result := Except.error (FetchError.request cause), finished := now, log := [] }
  | Except.ok url =>
    match clientDo url ctx now up with
    | (Except.error cause, t) =>
      { result := Except.error (FetchError.transport cause)
        finished := t
        log := if ctx.err t = some CtxErr.deadlineExceeded
               then ["timeout when making request http"] else [] }
    | (Except.ok resp, t) =>
      if resp.status ≠ 200 then
        { result := Except.error (FetchError.status resp.status), finished := t, log := [] }
      else
        match readBody ctx t resp with
        | (Except.error cause, t2) =>
          { result := Except.error (FetchError.decode (JSONError.read cause))
            finished := t2
            log := [] }
        | (Except.ok body, t2) =>
          match decodeAPIResponse body with
          | Except.error e =>
            { result := Except.error (FetchError.decode e), finished := t2, log := [] }
          | Except.ok apiResponse =>
            { result := Except.ok apiResponse.USDBRL.Bid
              finished := t2
              log := ["data received from the API: \x7bUSDBRL:\x7bBid:" ++
                apiResponse.USDBRL.Bid ++ "\x7d\x7d"] }

/-- The error `saveBid` returns: that of its context, or that of the sink. -/
inductive SaveError where
  | scope (e : CtxErr)
  | sink (cause : String)
deriving DecidableEq, Repr

/-- The text of the error of `saveBid`. -/
def SaveError.text : SaveError → String
  | SaveError.scope e => e.text
  | SaveError.sink cause => cause

/-- The function `saveBid`, its `select` evaluated at `now`: when the context
is done its error is returned and the sink is not touched, otherwise the
INSERT is executed and its error returned. -/
def saveBid (ctx : Context) (now : Nat) (fault : Option String) (bid : String) (db : Sink) :
    Option SaveError × Sink :=
  match ctx.err now with
  | some e => (some (SaveError.scope e), db)
  | none => ((execInsert fault now bid db).1.map SaveError.sink, (execInsert fault now bid db).2)

/-- The function `respondWithJSON` for the one payload it is called with, the
map with the single key `bid`. -/
def respondWithJSON (status : Nat) (bid : String) : Response :=
  match marshalBid bid with
  | Except.error _ => httpError "error serializing response" 500
  | Except.ok response =>
    { status := status, header := [("Content-Type", "application/json")], body := response }

/-- Everything outside the handler that one request depends on. -/
structure World where
  /-- The instant `handleCotacao` is entered. -/
  now : Nat
  /-- The instant the context of the inbound request is cancelled, if ever. -/
  requestCancelledAt : Option Nat
  /-- What the quote source does. -/
  upstream : Upstream
  /-- Time that passes between the return of `fetchBid` and the creation of
  the persist scope. -/
  pauseBeforeScope : Nat
  /-- Time that passes between the creation of the persist scope and the
  `select` of `saveBid`. -/
  pauseBeforeSave : Nat
  /-- Time `db.Exec` takes. -/
  execTime : Nat
  /-- The error the sink reports for the INSERT, if any. -/
  sinkFault : Option String
  /-- The text the JSON library gives its errors. -/
  libText : JSONError → String

/-- What one run of `handleCotacao` comes to: the response, the log lines, the
sink afterwards, and the value `saveBid` returned when it was called. -/
structure Handled where
  response : Response
  log : List String
  db : Sink
  saved : Option (Option SaveError)

/-- The context `r.Context()` of the inbound request. -/
def requestContext (w : World) : Context :=
  Context.withCancel Context.background w.requestCancelledAt

/-- The fetch scope D1 of `handleCotacao`. -/
def fetchScope (w : World) : Context :=
  withTimeout (requestContext w) w.now timeoutMaxCallTheDollarQuoteAPI

/-- The instant the persist scope D2 is created, when the fetch returned at `t`. -/
def scopeInstant (w : World) (t : Nat) : Nat := t + w.pauseBeforeScope

/-- The persist scope D2 of `handleCotacao`. -/
def saveScope (w : World) (t : Nat) : Context :=
  withTimeout Context.background (scopeInstant w t) timeoutMaxPersistDataBase

/-- The instant of the `select` in `saveBid`. -/
def saveInstant (w : World) (t : Nat) : Nat := scopeInstant w t + w.pauseBeforeSave

/-- The function `handleCotacao`. -/
def handleCotacao (w : World) (db : Sink) : Handled :=
  let ctx := fetchScope w
  let f := fetchBid ctx w.now w.upstream
  match f.result with
  | Except.error err =>
    { response := httpError ("error when searching for quote: " ++ errorText w.libText err) 500
      log := f.log ++
        (if ctx.err f.finished = some CtxErr.deadlineExceeded
         then ["timeout when making request dollar quote api"] else [])
      db := db
      saved := none }
  | Except.ok bid =>
    let ctxSave := saveScope w f.finished
    let s := saveBid ctxSave (saveInstant w f.finished) w.sinkFault bid db
    let after :=
      match s.1 with
      | some (SaveError.scope _) => saveInstant w f.finished
      | _ => saveInstant w f.finished + w.execTime
    { response := respondWithJSON 200 bid
      log := f.log ++
        (match s.1 with
         | some err =>
           (if ctx.err after = some CtxErr.deadlineExceeded
            then ["timeout when saving data to database"] else []) ++
           ["error saving to database: " ++ err.text]
         | none => [])
      db := s.2
      saved := some s.1 }

end Server

/-! ## client/client.go -/

namespace Client

/-- The constant `timeoutMaxResponseAPI`. -/
def timeoutMaxResponseAPI : Nat := 10 * millisecond

/-- The address of the Responder. -/
def serverURL : String := "http://localhost:8080/cotacao"

/-- The name of the file `saveToFile` writes. -/
def sinkFile : String := "cotacao.txt"

/-- The text of the error of `fetchBid`, as `%v` prints it. -/
def errorText (libText : JSONError → String) : FetchError → String
  | FetchError.request cause => "error creating http request: " ++ cause
  | FetchError.transport cause => "error when making http request: " ++ cause
  | FetchError.status code => "error in http response: status " ++ toString code
  | FetchError.decode e => "error when decoding JSON: " ++ e.text libText

/-- The function `fetchBid` of the client, called at `now`. The timeout line
goes through `log.Println`, which prints the verb `%w` as it stands. -/
def fetchBid (ctx : Context) (now : Nat) (up : Upstream) : Fetched :=
  match newRequest serverURL with
  | Except.error cause =>
    { result := Except.error (FetchError.request cause), finished := now, log := [] }
  | Except.ok url =>
    match clientDo url ctx now up with
    | (Except.error cause, t) =>
      { result := Except.error (FetchError.transport cause)
        finished := t
        log := if ctx.err t = some CtxErr.deadlineExceeded
               then ["timeout when making request http error: %w " ++ cause] else [] }
    | (Except.ok resp, t) =>
      if resp.status ≠ 200 then
        { result := Except.error (FetchError.status resp.status), finished := t, log := [] }
      else
        match readBody ctx t resp with
        | (Except.error cause, t2) =>
          { result := Except.error (FetchError.decode (JSONError.read cause))
            finished := t2
            log := [] }
        | (Except.ok body, t2) =>
          match decodeCurrencyResponse body with
          | Except.error e =>
            { result := Except.error (FetchError.decode e), finished := t2, log := [] }
          | Except.ok data => { result := Except.ok data.Bid, finished := t2, log := [] }

/-- The files of the working directory: the content of each file that exists. -/
abbrev Files := String → Option String

/-- Replace or create one file. -/
def Files.put (fs : Files) (name content : String) : Files :=
  fun n => if n = name then some content else fs n

/-- The function `saveToFile`. `createFault` is the error of `os.Create`, if
any; `writeFault` is the error of the write, if any, with the number of
characters that reached the file before it. -/
def saveToFile (createFault : Option String) (writeFault : Option (Nat × String))
    (bid : String) (fs : Files) : Option String × Files :=
  match createFault with
  | some e => (some ("error creating file: " ++ e), fs)
  | none =>
    match writeFault with
    | some (n, e) =>
      (some ("error writing to file: " ++ e),
        fs.put sinkFile (String.mk (("Dólar: " ++ bid ++ "\n").data.take n)))
    | none => (none, fs.put sinkFile ("Dólar: " ++ bid ++ "\n"))

/-- Everything outside the client that one run depends on. -/
structure World where
  /-- The instant `main` starts. -/
  now : Nat
  /-- What the Responder does. -/
  upstream : Upstream
  /-- The error of `os.Create`, if any. -/
  createFault : Option String
  /-- The error of the write to the file, if any. -/
  writeFault : Option (Nat × String)
  /-- The text the JSON library gives its errors. -/
  libText : JSONError → String

/-- What one run of the client comes to: the exit code, the lines on standard
output, the log lines, the files afterwards, and whether `saveToFile` was
called. -/
structure Exit where
  code : Nat
  stdout : List String
  log : List String
  files : Files
  savedToFile : Bool

/-- The function `main` of the client; `log.Fatalf` logs and exits with code 1. -/
def main (w : World) (fs : Files) : Exit :=
  let ctx := withTimeout Context.background w.now timeoutMaxResponseAPI
  let f := fetchBid ctx w.now w.upstream
  match f.result with
  | Except.error err =>
    { code := 1, stdout := [], log := f.log ++ ["error getting quote: " ++ errorText w.libText err]
      files := fs, savedToFile := false }
  | Except.ok bid =>
    match saveToFile w.createFault w.writeFault bid fs with
    | (some e, fs1) =>
      { code := 1, stdout := [], log := f.log ++ ["error saving to file: " ++ e]
        files := fs1, savedToFile := true }
    | (none, fs1) =>
      { code := 0, stdout := ["quote saved in quotacao.txt successfully!"], log := f.log
        files := fs1, savedToFile := true }

end Client

/-! ## Concrete runs

In a string literal the braces of JSON text are written `\x7b` and `\x7d`. -/

/-- Scenario A: a request at instant 0 that is never cancelled; the quote
source answers after 50ms with the bid 5.43 among other fields, the body
complete 1ms later; the sink takes the row. -/
def scenarioA : Server.World :=
  { now := 0
    requestCancelledAt := none
    upstream := Upstream.answers (49 * millisecond)
      { status := 200
        body := "\x7b\"USDBRL\":\x7b\"code\":\"USD\",\"bid\":\"5.43\",\"ask\":\"5.44\"\x7d\x7d"
        bodyAfter := 1 * millisecond
        bodyFault := none }
    pauseBeforeScope := 1000
    pauseBeforeSave := 1000
    execTime := 2 * millisecond
    sinkFault := none
    libText := fun _ => "json: error" }

/-- Scenario B: as scenario A, but the quote source takes 250ms. -/
def scenarioB : Server.World :=
  { scenarioA with
    upstream := Upstream.answers (250 * millisecond)
      { status := 200, body := "\x7b\"USDBRL\":\x7b\"bid\":\"5.43\"\x7d\x7d"
        bodyAfter := 0, bodyFault := none } }

/-- As scenario A, but status and headers arrive after 150ms and the body
100ms after them, beyond the fetch deadline. -/
def scenarioLateBody : Server.World :=
  { scenarioA with
    upstream := Upstream.answers (150 * millisecond)
      { status := 200, body := "\x7b\"USDBRL\":\x7b\"bid\":\"5.43\"\x7d\x7d"
        bodyAfter := 100 * millisecond, bodyFault := none } }

/-- Scenario C: as scenario A, but 11ms pass between the creation of the
persist scope and the `select` of `saveBid`. -/
def scenarioC : Server.World :=
  { scenarioA with pauseBeforeSave := 11 * millisecond }

/-- As scenario A, but the caller disconnects 500ns after the fetch has
returned, before the persist scope is created. -/
def scenarioGone : Server.World :=
  { scenarioA with requestCancelledAt := some (50 * millisecond + 500) }

/-- As scenario A, but 3ms pass before `saveBid` and the sink refuses the
row. -/
def scenarioAFault : Server.World :=
  { scenarioA with pauseBeforeSave := 3 * millisecond, sinkFault := some "database is locked" }

/-- As scenario A, but the body holds a second member that is named `BID`. -/
def scenarioUpperBid : Server.World :=
  { scenarioA with
    upstream := Upstream.answers (49 * millisecond)
      { status := 200
        body := "\x7b\"USDBRL\":\x7b\"bid\":\"5.43\",\"BID\":\"9\"\x7d\x7d"
        bodyAfter := 1 * millisecond
        bodyFault := none } }

/-- As scenario A, but the body holds a second member that is named `Bid` and
is a number. -/
def scenarioNumberBid : Server.World :=
  { scenarioA with
    upstream := Upstream.answers (49 * millisecond)
      { status := 200
        body := "\x7b\"USDBRL\":\x7b\"bid\":\"5.43\",\"Bid\":7\x7d\x7d"
        bodyAfter := 1 * millisecond
        bodyFault := none } }

/-- The conversion of the engine at the numeric texts of the concrete runs:
`5.43` and `5.430` both become the double nearest to 5.43, whose bits are
`0x4015B851EB851EB8`. No run binds another numeric text. -/
def sampleReal (s : String) : Nat :=
  if s = "5.43" ∨ s = "5.430" then 0x4015B851EB851EB8 else 0

/-- A sink in which the table exists and is empty. -/
def emptySink : Sink :=
  { currency := some [], lastId := 0, journal := [], toReal := sampleReal }

/-- A sink in which the table does not exist yet. -/
def freshSink : Sink :=
  { currency := none, lastId := 0, journal := [], toReal := sampleReal }

/-- A directory in which `cotacao.txt` holds an older quote. -/
def oldFiles : Client.Files :=
  fun name => if name = "cotacao.txt" then some "Dólar: 4.99\nstale line\n" else none

/-- Scenario E: the Responder answers after 15ms, the client waits 10ms. -/
def scenarioE : Client.World :=
  { now := 0
    upstream := Upstream.answers (15 * millisecond)
      { status := 200, body := "\x7b\"bid\":\"5.43\"\x7d", bodyAfter := 0, bodyFault := none }
    createFault := none
    writeFault := none
    libText := fun _ => "json: error" }

/-! ## Supporting lemmas: the scanner does not run out of fuel -/

theorem skipSpace_length_le (cs : List Char) : (skipSpace cs).length ≤ cs.length := by
  induction cs with
  | nil => simp [skipSpace]
  | cons c cs ih =>
    simp only [skipSpace]
    split_ifs
    · simp only [List.length_cons]; omega
    · exact le_refl _

theorem skipSpace_cons_length {cs r : List Char} {c : Char} (h : skipSpace cs = c :: r) :
    r.length < cs.length := by
  have := skipSpace_length_le cs
  rw [h] at this
  simp only [List.length_cons] at this
  omega

theorem nextLow_length {hi : Nat} {cs r : List Char} {ch : Char}
    (h : nextLow hi cs = some (ch, r)) : r.length ≤ cs.length := by
  unfold nextLow at h
  split at h
  · split_ifs at h
    split at h
    · simp only [Option.map_eq_some'] at h
      obtain ⟨_, _, h2⟩ := h
      simp only [Prod.mk.injEq] at h2
      rw [← h2.2]
      simp only [List.length_cons]
      omega
    · simp at h
  · simp at h

theorem parseString_length : ∀ (fuel : Nat) (cs s r : List Char),
    parseString fuel cs = some (s, r) → r.length ≤ cs.length := by
  intro fuel
  induction fuel with
  | zero => intro cs s r h; simp [parseString] at h
  | succ f ih =>
    intro cs s r h
    cases cs with
    | nil => simp [parseString] at h
    | cons c cs =>
      have step : ∀ (x : List Char) (ch : Char), x.length ≤ cs.length →
          (parseString f x).map (pushChar ch) = some (s, r) → r.length ≤ (c :: cs).length := by
        intro x ch hx hm
        simp only [Option.map_eq_some'] at hm
        obtain ⟨⟨s1, r1⟩, h1, h2⟩ := hm
        have := ih x s1 r1 h1
        simp only [pushChar, Prod.mk.injEq] at h2
        rw [← h2.2]
        simp only [List.length_cons]
        omega
      simp only [parseString] at h
      split_ifs at h with h1 h2 h3
      · simp only [Option.some.injEq, Prod.mk.injEq] at h
        rw [← h.2]; simp
      · split at h
        · simp at h
        · rename_i e r0
          split_ifs at h with hu
          · split at h
            · rename_i a b c2 d r2
              split at h
              · simp at h
              · rename_i u hu4
                split_ifs at h with hs
                · split at h
                  · rename_i ch r3 hlow
                    have := nextLow_length hlow
                    exact step r3 ch (by simp only [List.length_cons]; omega) h
                  · exact step r2 _ (by simp only [List.length_cons]; omega) h
                · exact step r2 _ (by simp only [List.length_cons]; omega) h
            · simp at h
          · split at h
            · exact step r0 _ (by simp only [List.length_cons]; omega) h
            · simp at h
      · exact step cs c (le_refl _) h

theorem parseString_fuel : ∀ (f : Nat) (cs : List Char) (g : Nat),
    cs.length < f → cs.length < g → parseString f cs = parseString g cs := by
  intro f
  induction f with
  | zero => intro cs g h; omega
  | succ f ih =>
    intro cs g hf hg
    obtain ⟨g, rfl⟩ : ∃ g', g = g' + 1 := ⟨g - 1, by omega⟩
    cases cs with
    | nil => simp [parseString]
    | cons c cs =>
      simp only [List.length_cons] at hf hg
      have step : ∀ (x : List Char) (ch : Char), x.length ≤ cs.length →
          (parseString f x).map (pushChar ch) = (parseString g x).map (pushChar ch) := by
        intro x ch hx
        rw [ih x g (by omega) (by omega)]
      simp only [parseString]
      split_ifs with h1 h2 h3
      · rfl
      · rcases cs with _ | ⟨e, r⟩
        · rfl
        · dsimp only
          split_ifs with hu
          · rcases r with _ | ⟨a, _ | ⟨b, _ | ⟨c2, _ | ⟨d, r2⟩⟩⟩⟩ <;> try rfl
            dsimp only
            cases hg4 : getu4 a b c2 d with
            | none => rfl
            | some u =>
              dsimp only
              split_ifs with hs
              · cases hl : nextLow u r2 with
                | none => exact step r2 _ (by simp only [List.length_cons]; omega)
                | some p =>
                  obtain ⟨ch, r3⟩ := p
                  have := nextLow_length hl
                  exact step r3 ch (by simp only [List.length_cons]; omega)
              · exact step r2 _ (by simp only [List.length_cons]; omega)
          · cases unescape e with
            | none => rfl
            | some ch => exact step r ch (by simp only [List.length_cons]; omega)
      · rfl
      · exact step cs c (le_refl _)

theorem stripWord_length : ∀ (w cs r : List Char), stripWord w cs = some r → r.length ≤ cs.length := by
  intro w
  induction w with
  | nil => intro cs r h; simp [stripWord] at h; rw [h]
  | cons x w ih =>
    intro cs r h
    cases cs with
    | nil => simp [stripWord] at h
    | cons c cs =>
      simp only [stripWord] at h
      split_ifs at h
      have := ih cs r h
      simp only [List.length_cons]; omega

theorem spanDigits_length (cs : List Char) : (spanDigits cs).2.length ≤ cs.length := by
  induction cs with
  | nil => simp [spanDigits]
  | cons c cs ih =>
    simp only [spanDigits]
    split_ifs
    · simp only [List.length_cons]; omega
    · exact le_refl _

theorem scanFraction_length {cs l r : List Char} (h : scanFraction cs = some (l, r)) :
    r.length ≤ cs.length := by
  unfold scanFraction at h
  rcases cs with _ | ⟨c, t⟩
  · simp at h; rw [← h.2]
  · dsimp only at h
    split_ifs at h
    · have := spanDigits_length t
      split at h
      · simp at h
      · rename_i ds r2 heq
        simp only [Option.some.injEq, Prod.mk.injEq] at h
        rw [heq] at this
        rw [← h.2]; simp only [List.length_cons]; simp only at this; omega
    · simp only [Option.some.injEq, Prod.mk.injEq] at h
      rw [← h.2]

theorem scanExponent_length {cs l r : List Char} (h : scanExponent cs = some (l, r)) :
    r.length ≤ cs.length := by
  unfold scanExponent at h
  rcases cs with _ | ⟨c, t⟩
  · simp at h; rw [← h.2]
  · dsimp only at h
    split_ifs at h
    · rcases t with _ | ⟨s, t2⟩
      · simp at h
      · dsimp only at h
        split_ifs at h
        · have := spanDigits_length t2
          split at h
          · simp at h
          · rename_i ds r3 heq
            simp only [Option.some.injEq, Prod.mk.injEq] at h
            rw [heq] at this
            rw [← h.2]; simp only [List.length_cons]; simp only at this; omega
        · have := spanDigits_length (s :: t2)
          split at h
          · simp at h
          · rename_i ds r3 heq
            simp only [Option.some.injEq, Prod.mk.injEq] at h
            rw [heq] at this
            rw [← h.2]; simp only [List.length_cons] at this ⊢; omega
    · simp only [Option.some.injEq, Prod.mk.injEq] at h
      rw [← h.2]

theorem scanInteger_length {cs l r : List Char} (h : scanInteger cs = some (l, r)) :
    r.length ≤ cs.length := by
  unfold scanInteger at h
  rcases cs with _ | ⟨c, t⟩
  · simp at h
  · dsimp only at h
    have := spanDigits_length t
    split_ifs at h <;> simp only [Option.some.injEq, Prod.mk.injEq] at h <;> rw [← h.2] <;>
      simp only [List.length_cons] <;> omega

theorem scanNumber_length {cs l r : List Char} (h : scanNumber cs = some (l, r)) :
    r.length ≤ cs.length := by
  unfold scanNumber at h
  dsimp only at h
  have hsigned : (match cs with
      | c :: r => if c = '-' then ([c], r) else ([], cs)
      | [] => (([], []) : List Char × List Char)).2.length ≤ cs.length := by
    rcases cs with _ | ⟨c, t⟩
    · simp
    · dsimp only
      split_ifs <;> simp
  split at h
  · simp at h
  · rename_i ip r1 h1
    split at h
    · simp at h
    · rename_i fp r2 h2
      split at h
      · simp at h
      · rename_i ep r3 h3
        simp only [Option.some.injEq, Prod.mk.injEq] at h
        have a1 := scanInteger_length h1
        have a2 := scanFraction_length h2
        have a3 := scanExponent_length h3
        rw [← h.2]
        omega

theorem parse_length : ∀ f : Nat,
    (∀ d cs v r, parseValue f d cs = some (v, r) → r.length ≤ cs.length) ∧
    (∀ d cs ms r, parseMembers f d cs = some (ms, r) → r.length ≤ cs.length) ∧
    (∀ d cs items r, parseItems f d cs = some (items, r) → r.length ≤ cs.length) := by
  intro f
  induction f with
  | zero => simp [parseValue, parseMembers, parseItems]
  | succ f ih =>
    obtain ⟨ihV, ihM, ihI⟩ := ih
    refine ⟨?_, ?_, ?_⟩
    · intro d cs v r h
      simp only [parseValue] at h
      cases hs : skipSpace cs with
      | nil => simp [hs] at h
      | cons c t =>
        have ht := skipSpace_cons_length hs
        rw [hs] at h
        dsimp only at h
        split_ifs at h with h1 h2 h3 h4 h5 h6
        · cases hs2 : skipSpace t with
          | nil => simp [hs2] at h
          | cons c2 t2 =>
            have ht2 := skipSpace_cons_length hs2
            rw [hs2] at h
            dsimp only at h
            split_ifs at h with h7
            · simp only [Option.some.injEq, Prod.mk.injEq] at h
              rw [← h.2]; omega
            · simp only [Option.map_eq_some'] at h
              obtain ⟨⟨ms, r1⟩, hm, heq⟩ := h
              have := ihM _ _ _ _ hm
              simp only [Prod.mk.injEq] at heq
              rw [← heq.2]
              simp only [List.length_cons] at this
              omega
        · cases hs2 : skipSpace t with
          | nil => simp [hs2] at h
          | cons c2 t2 =>
            have ht2 := skipSpace_cons_length hs2
            rw [hs2] at h
            dsimp only at h
            split_ifs at h with h7
            · simp only [Option.some.injEq, Prod.mk.injEq] at h
              rw [← h.2]; omega
            · simp only [Option.map_eq_some'] at h
              obtain ⟨⟨ms, r1⟩, hm, heq⟩ := h
              have := ihI _ _ _ _ hm
              simp only [Prod.mk.injEq] at heq
              rw [← heq.2]
              simp only [List.length_cons] at this
              omega
        · simp only [Option.map_eq_some'] at h
          obtain ⟨⟨s, r1⟩, hm, heq⟩ := h
          have := parseString_length _ _ _ _ hm
          simp only [Prod.mk.injEq] at heq
          rw [← heq.2]; omega
        · simp only [Option.map_eq_some'] at h
          obtain ⟨r1, hm, heq⟩ := h
          have := stripWord_length _ _ _ hm
          simp only [Prod.mk.injEq] at heq
          rw [← heq.2]; omega
        · simp only [Option.map_eq_some'] at h
          obtain ⟨r1, hm, heq⟩ := h
          have := stripWord_length _ _ _ hm
          simp only [Prod.mk.injEq] at heq
          rw [← heq.2]; omega
        · simp only [Option.map_eq_some'] at h
          obtain ⟨r1, hm, heq⟩ := h
          have := stripWord_length _ _ _ hm
          simp only [Prod.mk.injEq] at heq
          rw [← heq.2]; omega
        · simp only [Option.map_eq_some'] at h
          obtain ⟨⟨l, r1⟩, hm, heq⟩ := h
          have := scanNumber_length hm
          simp only [Prod.mk.injEq] at heq
          rw [← heq.2]
          simp only [List.length_cons] at this
          omega
    · intro d cs ms r h
      simp only [parseMembers] at h
      cases hs : skipSpace cs with
      | nil => simp [hs] at h
      | cons q t =>
        have ht := skipSpace_cons_length hs
        rw [hs] at h
        dsimp only at h
        split_ifs at h with hq
        cases hk : parseString f t with
        | none => simp [hk] at h
        | some p =>
          obtain ⟨key, r1⟩ := p
          have hr1 := parseString_length _ _ _ _ hk
          rw [hk] at h
          dsimp only at h
          cases hs1 : skipSpace r1 with
          | nil => simp [hs1] at h
          | cons colon r2 =>
            have hr2 := skipSpace_cons_length hs1
            rw [hs1] at h
            dsimp only at h
            split_ifs at h with hc
            cases hv : parseValue f d r2 with
            | none => simp [hv] at h
            | some p =>
              obtain ⟨v, r3⟩ := p
              have hr3 := ihV _ _ _ _ hv
              rw [hv] at h
              dsimp only at h
              cases hs3 : skipSpace r3 with
              | nil => simp [hs3] at h
              | cons sep r4 =>
                have hr4 := skipSpace_cons_length hs3
                rw [hs3] at h
                dsimp only at h
                split_ifs at h with h1 h2
                · simp only [Option.some.injEq, Prod.mk.injEq] at h
                  rw [← h.2]; omega
                · simp only [Option.map_eq_some'] at h
                  obtain ⟨⟨ms1, r5⟩, hm, heq⟩ := h
                  have := ihM _ _ _ _ hm
                  simp only [Prod.mk.injEq] at heq
                  rw [← heq.2]; omega
    · intro d cs items r h
      simp only [parseItems] at h
      cases hv : parseValue f d cs with
      | none => simp [hv] at h
      | some p =>
        obtain ⟨v, r1⟩ := p
        have hr1 := ihV _ _ _ _ hv
        rw [hv] at h
        dsimp only at h
        cases hs : skipSpace r1 with
        | nil => simp [hs] at h
        | cons sep r2 =>
          have hr2 := skipSpace_cons_length hs
          rw [hs] at h
          dsimp only at h
          split_ifs at h with h1 h2
          · simp only [Option.some.injEq, Prod.mk.injEq] at h
            rw [← h.2]; omega
          · simp only [Option.map_eq_some'] at h
            obtain ⟨⟨l, r3⟩, hm, heq⟩ := h
            have := ihI _ _ _ _ hm
            simp only [Prod.mk.injEq] at heq
            rw [← heq.2]; omega

theorem parse_fuel : ∀ f : Nat,
    (∀ d cs g, 2 * cs.length < f → 2 * cs.length < g →
      parseValue f d cs = parseValue g d cs) ∧
    (∀ d cs g, 2 * cs.length + 1 < f → 2 * cs.length + 1 < g →
      parseMembers f d cs = parseMembers g d cs) ∧
    (∀ d cs g, 2 * cs.length + 1 < f → 2 * cs.length + 1 < g →
      parseItems f d cs = parseItems g d cs) := by
  intro f
  induction f with
  | zero =>
    refine ⟨?_, ?_, ?_⟩ <;> intro d cs g h <;> omega
  | succ f ih =>
    obtain ⟨ihV, ihM, ihI⟩ := ih
    refine ⟨?_, ?_, ?_⟩
    · intro d cs g hf hg
      obtain ⟨g, rfl⟩ : ∃ g', g = g' + 1 := ⟨g - 1, by omega⟩
      simp only [parseValue]
      cases hs : skipSpace cs with
      | nil => rfl
      | cons c t =>
        have ht := skipSpace_cons_length hs
        dsimp only
        split_ifs with h1 h2 h3 h4 h5 h6
        · rfl
        · cases hs2 : skipSpace t with
          | nil => rfl
          | cons c2 t2 =>
            have ht2 := skipSpace_cons_length hs2
            dsimp only
            split_ifs with h7
            · rfl
            · rw [ihM (d - 1) (c2 :: t2) g (by simp only [List.length_cons]; omega)
                (by simp only [List.length_cons]; omega)]
        · rfl
        · cases hs2 : skipSpace t with
          | nil => rfl
          | cons c2 t2 =>
            have ht2 := skipSpace_cons_length hs2
            dsimp only
            split_ifs with h7
            · rfl
            · rw [ihI (d - 1) (c2 :: t2) g (by simp only [List.length_cons]; omega)
                (by simp only [List.length_cons]; omega)]
        · rw [parseString_fuel f t g (by omega) (by omega)]
        · rfl
        · rfl
        · rfl
        · rfl
    · intro d cs g hf hg
      obtain ⟨g, rfl⟩ : ∃ g', g = g' + 1 := ⟨g - 1, by omega⟩
      simp only [parseMembers]
      cases hs : skipSpace cs with
      | nil => rfl
      | cons q t =>
        have ht := skipSpace_cons_length hs
        dsimp only
        split_ifs with hq
        · rw [← parseString_fuel f t g (by omega) (by omega)]
          cases hk : parseString f t with
          | none => rfl
          | some p =>
            obtain ⟨key, r1⟩ := p
            have hr1 := parseString_length _ _ _ _ hk
            dsimp only
            cases hs1 : skipSpace r1 with
            | nil => rfl
            | cons colon r2 =>
              have hr2 := skipSpace_cons_length hs1
              dsimp only
              split_ifs with hc
              · rw [← ihV d r2 g (by omega) (by omega)]
                cases hv : parseValue f d r2 with
                | none => rfl
                | some p =>
                  obtain ⟨v, r3⟩ := p
                  have hr3 := (parse_length f).1 _ _ _ _ hv
                  dsimp only
                  cases hs3 : skipSpace r3 with
                  | nil => rfl
                  | cons sep r4 =>
                    have hr4 := skipSpace_cons_length hs3
                    dsimp only
                    split_ifs with h1 h2
                    · rfl
                    · rw [ihM d r4 g (by omega) (by omega)]
                    · rfl
              · rfl
        · rfl
    · intro d cs g hf hg
      obtain ⟨g, rfl⟩ : ∃ g', g = g' + 1 := ⟨g - 1, by omega⟩
      simp only [parseItems]
      rw [← ihV d cs g (by omega) (by omega)]
      cases hv : parseValue f d cs with
      | none => rfl
      | some p =>
        obtain ⟨v, r1⟩ := p
        have hr1 := (parse_length f).1 _ _ _ _ hv
        dsimp only
        cases hs : skipSpace r1 with
        | nil => rfl
        | cons sep r2 =>
          have hr2 := skipSpace_cons_length hs
          dsimp only
          split_ifs with h1 h2
          · rfl
          · rw [ihI d r2 g (by omega) (by omega)]
          · rfl

/-- The fuel of `readValue` is enough: more fuel reads the same value, or
fails as well. -/
theorem readValue_fuel (body : List Char) (g : Nat) (hg : 2 * body.length < g) :
    (parseValue g maxNestingDepth body).map Prod.fst = readValue body := by
  unfold readValue
  rw [(parse_fuel (2 * body.length + 1)).1 maxNestingDepth body g (by omega) hg]

/-- With no depth left the scanner opens neither an object nor an array. -/
theorem parseValue_depth_exceeded (fuel : Nat) (c : Char) (rest : List Char)
    (hc : c = '{' ∨ c = '[') : parseValue fuel 0 (c :: rest) = none := by
  cases fuel with
  | zero => simp [parseValue]
  | succ f =>
    rcases hc with h | h <;> subst h <;> simp [parseValue, skipSpace, isSpace]

theorem skipSpace_bracket (r : List Char) : skipSpace ('[' :: r) = '[' :: r := by
  simp [skipSpace, isSpace]

/-- One array bracket more than the depth allows is refused, whatever
follows. -/
theorem parseValue_too_deep : ∀ (d fuel : Nat) (rest : List Char),
    parseValue fuel d (List.replicate (d + 1) '[' ++ rest) = none := by
  intro d
  induction d with
  | zero =>
    intro fuel rest
    exact parseValue_depth_exceeded fuel '[' rest (Or.inr rfl)
  | succ d ih =>
    intro fuel rest
    cases fuel with
    | zero => simp [parseValue]
    | succ f =>
      have hrep : List.replicate (d + 1 + 1) '[' ++ rest =
          '[' :: (List.replicate (d + 1) '[' ++ rest) := by
        simp [List.replicate_succ]
      have hin : List.replicate (d + 1) '[' ++ rest =
          '[' :: (List.replicate d '[' ++ rest) := by
        simp [List.replicate_succ]
      have hitems : parseItems f d (List.replicate (d + 1) '[' ++ rest) = none := by
        cases f with
        | zero => simp [parseItems]
        | succ g => simp [parseItems, ih g rest]
      rw [hin] at hitems
      rw [hrep]
      simp only [parseValue, skipSpace_bracket]
      rw [hin, skipSpace_bracket]
      simp [hitems]

/-- A body that opens 10001 arrays inside one another is not read. -/
theorem readValue_too_deep (rest : List Char) :
    readValue (List.replicate 10001 '[' ++ rest) = none := by
  unfold readValue
  rw [show (10001 : Nat) = maxNestingDepth + 1 from rfl, parseValue_too_deep]
  rfl

theorem skipSpace_close (r : List Char) : skipSpace (']' :: r) = ']' :: r := by
  simp [skipSpace, isSpace]

/-- Arrays inside one another are read as long as the depth allows them. -/
theorem parseValue_nested : ∀ (n d fuel : Nat) (rest : List Char),
    n < d → 2 * n + 1 ≤ fuel →
    parseValue fuel d (List.replicate (n + 1) '[' ++ (List.replicate (n + 1) ']' ++ rest)) =
      some (nestedArrays n, rest) := by
  intro n
  induction n with
  | zero =>
    intro d fuel rest hd hf
    obtain ⟨f, rfl⟩ : ∃ f, fuel = f + 1 := ⟨fuel - 1, by omega⟩
    have hd0 : ¬ d = 0 := by omega
    simp [parseValue, skipSpace_bracket, skipSpace_close, hd0, nestedArrays]
  | succ n ih =>
    intro d fuel rest hd hf
    obtain ⟨g, rfl⟩ : ∃ g, fuel = g + 1 + 1 := ⟨fuel - 2, by omega⟩
    have hd0 : ¬ d = 0 := by omega
    have hopen : List.replicate (n + 1 + 1) '[' ++ (List.replicate (n + 1 + 1) ']' ++ rest) =
        '[' :: '[' :: (List.replicate n '[' ++ (List.replicate (n + 1) ']' ++ ']' :: rest)) := by
      have hclose : List.replicate (n + 1 + 1) ']' ++ rest =
          List.replicate (n + 1) ']' ++ ']' :: rest := by
        rw [List.replicate_succ' (n + 1)]
        simp
      rw [hclose]
      simp [List.replicate_succ]
    have hinner : '[' :: (List.replicate n '[' ++ (List.replicate (n + 1) ']' ++ ']' :: rest)) =
        List.replicate (n + 1) '[' ++ (List.replicate (n + 1) ']' ++ ']' :: rest) := by
      simp [List.replicate_succ]
    have hv := ih (d - 1) g (']' :: rest) (by omega) (by omega)
    rw [← hinner] at hv
    rw [hopen]
    simp [parseValue, parseItems, skipSpace_bracket, skipSpace_close, hd0, hv, nestedArrays]

/-- A body that opens 10000 arrays inside one another is read. -/
theorem readValue_deepest (rest : List Char) :
    readValue (List.replicate 10000 '[' ++ (List.replicate 10000 ']' ++ rest)) =
      some (nestedArrays 9999) := by
  unfold readValue
  rw [parseValue_nested 9999 maxNestingDepth _ rest (by decide)
    (by simp only [List.length_append, List.length_replicate]; omega)]
  rfl

/-! ## Supporting lemmas: unquoting what Marshal quotes -/

theorem hexVal_hexDigit (n : Nat) (h : n < 16) : hexVal (hexDigit n) = some n := by
  interval_cases n <;> decide

theorem char_eq_of_toNat (c : Char) (n : Nat) (h : c.toNat = n) : c = Char.ofNat n := by
  rw [← h, Char.ofNat_toNat]

theorem getu4_low (n : Nat) (h : n < 256) :
    getu4 '0' '0' (hexDigit (n / 16)) (hexDigit (n % 16)) = some n := by
  have h1 : hexVal (hexDigit (n / 16)) = some (n / 16) := hexVal_hexDigit _ (by omega)
  have h2 : hexVal (hexDigit (n % 16)) = some (n % 16) := hexVal_hexDigit _ (by omega)
  have h0 : hexVal '0' = some 0 := by decide
  simp only [getu4, h0, h1, h2]
  congr 1
  omega


theorem parseString_escapeChar (c : Char) (fuel : Nat) (rest : List Char) :
    parseString (fuel + 1) (escapeChar c ++ rest) = (parseString fuel rest).map (pushChar c) := by
  unfold escapeChar
  simp only []
  split_ifs with h1 h2 h3 h4 h5 h6 h7 h8
  · rcases h1 with h | h <;> subst h <;> simp [parseString, unescape]
  · have hc := char_eq_of_toNat c 8 h2
    subst hc
    simp [parseString, unescape]
  · have hc := char_eq_of_toNat c 12 h3
    subst hc
    simp [parseString, unescape]
  · subst h4
    simp [parseString, unescape]
  · subst h5
    simp [parseString, unescape]
  · subst h6
    simp [parseString, unescape]
  · have hlt : c.toNat < 256 := by
      rcases h7 with h | h | h | h
      · omega
      · subst h; decide
      · subst h; decide
      · subst h; decide
    have hs : isSurrogate c.toNat = false := by
      simp [isSurrogate]; omega
    simp [parseString, getu4_low c.toNat hlt, hs]
  · have hg : getu4 '2' '0' '2' (hexDigit (c.toNat % 16)) = some c.toNat := by
      rcases h8 with h | h <;> rw [h] <;> decide
    have hs : isSurrogate c.toNat = false := by
      rcases h8 with h | h <;> rw [h] <;> decide
    simp [parseString, hg, hs]
  · push_neg at h1 h7 h8
    have hq : ¬ c = '"' := h1.1
    have hb : ¬ c = '\\' := h1.2
    have hn : ¬ c.toNat < 32 := by omega
    simp [parseString, hq, hb, hn]

theorem escapeChar_length_pos (c : Char) : 1 ≤ (escapeChar c).length := by
  unfold escapeChar
  simp only []
  split_ifs <;> simp

theorem length_le_escaped (s : List Char) : s.length ≤ (s.flatMap escapeChar).length := by
  induction s with
  | nil => simp
  | cons c s ih =>
    have := escapeChar_length_pos c
    simp only [List.flatMap_cons, List.length_cons, List.length_append]
    omega

theorem parseString_escaped (s rest : List Char) :
    ∀ fuel, s.length < fuel →
      parseString fuel (s.flatMap escapeChar ++ '"' :: rest) = some (s, rest) := by
  induction s with
  | nil =>
    intro fuel h
    obtain ⟨f, rfl⟩ : ∃ f, fuel = f + 1 := ⟨fuel - 1, by simp at h; omega⟩
    simp [parseString]
  | cons c s ih =>
    intro fuel h
    obtain ⟨f, rfl⟩ : ∃ f, fuel = f + 1 := ⟨fuel - 1, by simp at h; omega⟩
    have hf : s.length < f := by simp at h; omega
    rw [List.flatMap_cons, List.append_assoc, parseString_escapeChar, ih f hf]
    rfl

theorem parseValue_bid_object (esc s : List Char) (m : Nat)
    (h : parseString (m + 3) (esc ++ ['"', '}']) = some (s, ['}'])) :
    parseValue (m + 6) maxNestingDepth ('{' :: '"' :: 'b' :: 'i' :: 'd' :: '"' :: ':' :: '"' :: (esc ++ ['"', '}'])) =
      some (JSON.obj [(['b', 'i', 'd'], JSON.str s)], []) := by
  simp [parseValue, parseMembers, parseString, skipSpace, isSpace, pushChar, maxNestingDepth, h]

theorem marshalBid_data (bid : String) :
    marshalBid bid = Except.ok (String.mk
      ('{' :: '"' :: 'b' :: 'i' :: 'd' :: '"' :: ':' :: '"' ::
        (bid.data.flatMap escapeChar ++ ['"', '}']))) := by
  simp [marshalBid, appendString, escapeChar]
  
theorem readValue_marshalBid (bid : String) :
    readValue ('{' :: '"' :: 'b' :: 'i' :: 'd' :: '"' :: ':' :: '"' ::
        (bid.data.flatMap escapeChar ++ ['"', '}'])) =
      some (JSON.obj [(['b', 'i', 'd'], JSON.str bid.data)]) := by
  have hlen := length_le_escaped bid.data
  have hs := parseString_escaped bid.data ['}']
    (2 * (bid.data.flatMap escapeChar).length + 15 + 3) (by omega)
  have := parseValue_bid_object (bid.data.flatMap escapeChar) bid.data
    (2 * (bid.data.flatMap escapeChar).length + 15) hs
  unfold readValue
  have hL : 2 * ('{' :: '"' :: 'b' :: 'i' :: 'd' :: '"' :: ':' :: '"' ::
        (bid.data.flatMap escapeChar ++ ['"', '}'])).length + 1 =
      2 * (bid.data.flatMap escapeChar).length + 15 + 6 := by
    simp only [List.length_cons, List.length_append, List.length_nil]
    omega
  rw [hL, this]
  rfl

/-! ## Supporting lemmas: storing object members -/

theorem foldl_storeCurrencyMember_filter (ms : List (List Char × JSON)) :
    ∀ st : Decoding CurrencyResponse,
      ms.foldl storeCurrencyMember st =
        (ms.filter fun m => fieldMatches "bid" m.1).foldl storeCurrencyMember st := by
  induction ms with
  | nil => intro st; rfl
  | cons m ms ih =>
    intro st
    by_cases hm : fieldMatches "bid" m.1 = true
    · simp only [List.foldl_cons, List.filter_cons, hm, if_true]
      exact ih _
    · simp only [List.foldl_cons, List.filter_cons, hm]
      have : storeCurrencyMember st m = st := by simp [storeCurrencyMember, hm]
      rw [this]
      exact ih st

theorem foldl_storeAPIMember_filter (ms : List (List Char × JSON)) :
    ∀ st : Decoding APIResponse,
      ms.foldl storeAPIMember st =
        (ms.filter fun m => fieldMatches "USDBRL" m.1).foldl storeAPIMember st := by
  induction ms with
  | nil => intro st; rfl
  | cons m ms ih =>
    intro st
    by_cases hm : fieldMatches "USDBRL" m.1 = true
    · simp only [List.foldl_cons, List.filter_cons, hm, if_true]
      exact ih _
    · simp only [List.foldl_cons, List.filter_cons, hm]
      have : storeAPIMember st m = st := by simp [storeAPIMember, hm]
      rw [this]
      exact ih st

/-- A bid that the decoder has set comes from a string member named `bid`. -/
theorem foldl_storeCurrencyMember_source (ms : List (List Char × JSON)) :
    ∀ st : Decoding CurrencyResponse,
      (ms.foldl storeCurrencyMember st).1.Bid = st.1.Bid ∨
      ∃ k, (k, JSON.str (ms.foldl storeCurrencyMember st).1.Bid.data) ∈ ms ∧
        fieldMatches "bid" k = true := by
  induction ms with
  | nil => intro st; exact Or.inl rfl
  | cons m ms ih =>
    intro st
    rw [List.foldl_cons]
    rcases ih (storeCurrencyMember st m) with h | ⟨k, hk, hf⟩
    · rw [h]
      obtain ⟨key, v⟩ := m
      by_cases hm : fieldMatches "bid" key = true
      · cases v with
        | str s =>
          right
          exact ⟨key, by simp [storeCurrencyMember, hm], hm⟩
        | null => left; simp [storeCurrencyMember, hm]
        | bool b => left; simp [storeCurrencyMember, hm]
        | num l => left; simp [storeCurrencyMember, hm]
        | arr l => left; simp [storeCurrencyMember, hm]
        | obj l => left; simp [storeCurrencyMember, hm]
      · left; simp [storeCurrencyMember, hm]
    · exact Or.inr ⟨k, List.mem_cons_of_mem _ hk, hf⟩

/-- The same for a value stored in a `CurrencyResponse`. -/
theorem storeCurrency_source (st : Decoding CurrencyResponse) (v : JSON) :
    (storeCurrency st v).1.Bid = st.1.Bid ∨
    ∃ ms k, v = JSON.obj ms ∧ (k, JSON.str (storeCurrency st v).1.Bid.data) ∈ ms ∧
      fieldMatches "bid" k = true := by
  cases v with
  | obj ms =>
    rcases foldl_storeCurrencyMember_source ms st with h | ⟨k, hk, hf⟩
    · exact Or.inl h
    · exact Or.inr ⟨ms, k, rfl, hk, hf⟩
  | null => exact Or.inl rfl
  | bool b => exact Or.inl rfl
  | num l => exact Or.inl rfl
  | str s => exact Or.inl rfl
  | arr l => exact Or.inl rfl

/-- A bid that the decoder of the server has set comes from a string member
`bid` of an object member `USDBRL`. -/
theorem foldl_storeAPIMember_source (ms : List (List Char × JSON)) :
    ∀ st : Decoding APIResponse,
      (ms.foldl storeAPIMember st).1.USDBRL.Bid = st.1.USDBRL.Bid ∨
      ∃ k ims k2, (k, JSON.obj ims) ∈ ms ∧ fieldMatches "USDBRL" k = true ∧
        (k2, JSON.str (ms.foldl storeAPIMember st).1.USDBRL.Bid.data) ∈ ims ∧
        fieldMatches "bid" k2 = true := by
  induction ms with
  | nil => intro st; exact Or.inl rfl
  | cons m ms ih =>
    intro st
    rw [List.foldl_cons]
    rcases ih (storeAPIMember st m) with h | ⟨k, ims, k2, hk, hf, hk2, hf2⟩
    · rw [h]
      obtain ⟨key, v⟩ := m
      by_cases hm : fieldMatches "USDBRL" key = true
      · have hstep : (storeAPIMember st (key, v)).1.USDBRL.Bid =
            (storeCurrency (st.1.USDBRL, st.2) v).1.Bid := by
          simp [storeAPIMember, hm]
        rw [hstep]
        rcases storeCurrency_source (st.1.USDBRL, st.2) v with h2 | ⟨ims, k2, hv, hk2, hf2⟩
        · exact Or.inl h2
        · subst hv
          exact Or.inr ⟨key, ims, k2, by simp, hm, hk2, hf2⟩
      · left; simp [storeAPIMember, hm]
    · exact Or.inr ⟨k, ims, k2, List.mem_cons_of_mem _ hk, hf, hk2, hf2⟩

/-! ## Supporting lemmas: type errors are kept -/

theorem storeCurrencyMember_flag (st : Decoding CurrencyResponse) (m : List Char × JSON)
    (h : st.2 = false) : (storeCurrencyMember st m).2 = false := by
  obtain ⟨key, v⟩ := m
  by_cases hm : fieldMatches "bid" key = true
  · cases v <;> simp [storeCurrencyMember, hm, h]
  · simp [storeCurrencyMember, hm, h]

theorem foldl_storeCurrencyMember_flag (ms : List (List Char × JSON)) :
    ∀ st : Decoding CurrencyResponse, st.2 = false →
      (ms.foldl storeCurrencyMember st).2 = false := by
  induction ms with
  | nil => intro st h; exact h
  | cons m ms ih =>
    intro st h
    exact ih _ (storeCurrencyMember_flag st m h)

theorem foldl_storeCurrencyMember_mismatch (ms : List (List Char × JSON)) (k : List Char)
    (v : JSON) (hmem : (k, v) ∈ ms) (hk : fieldMatches "bid" k = true)
    (hv : storableInString v = false) :
    ∀ st : Decoding CurrencyResponse, (ms.foldl storeCurrencyMember st).2 = false := by
  induction ms with
  | nil => simp at hmem
  | cons m ms ih =>
    intro st
    rw [List.foldl_cons]
    rcases List.mem_cons.mp hmem with h | h
    · subst h
      apply foldl_storeCurrencyMember_flag
      cases v <;> simp_all [storeCurrencyMember, storableInString]
    · exact ih h _

theorem storeCurrency_flag (st : Decoding CurrencyResponse) (v : JSON) (h : st.2 = false) :
    (storeCurrency st v).2 = false := by
  cases v with
  | obj ms => exact foldl_storeCurrencyMember_flag ms st h
  | null => exact h
  | bool b => rfl
  | num l => rfl
  | str s => rfl
  | arr l => rfl

theorem storeAPIMember_flag (st : Decoding APIResponse) (m : List Char × JSON)
    (h : st.2 = false) : (storeAPIMember st m).2 = false := by
  by_cases hm : fieldMatches "USDBRL" m.1 = true
  · simp only [storeAPIMember, hm, if_true]
    exact storeCurrency_flag _ _ h
  · simp [storeAPIMember, hm, h]

theorem foldl_storeAPIMember_flag (ms : List (List Char × JSON)) :
    ∀ st : Decoding APIResponse, st.2 = false → (ms.foldl storeAPIMember st).2 = false := by
  induction ms with
  | nil => intro st h; exact h
  | cons m ms ih =>
    intro st h
    exact ih _ (storeAPIMember_flag st m h)

theorem foldl_storeAPIMember_mismatch (ms ims : List (List Char × JSON)) (k k2 : List Char)
    (v : JSON) (hmem : (k, JSON.obj ims) ∈ ms) (hk : fieldMatches "USDBRL" k = true)
    (hmem2 : (k2, v) ∈ ims) (hk2 : fieldMatches "bid" k2 = true)
    (hv : storableInString v = false) :
    ∀ st : Decoding APIResponse, (ms.foldl storeAPIMember st).2 = false := by
  induction ms with
  | nil => simp at hmem
  | cons m ms ih =>
    intro st
    rw [List.foldl_cons]
    rcases List.mem_cons.mp hmem with h | h
    · subst h
      apply foldl_storeAPIMember_flag
      simp only [storeAPIMember, hk, if_true, storeCurrency]
      exact foldl_storeCurrencyMember_mismatch ims k2 v hmem2 hk2 hv _
    · exact ih h _

/-- The decoder ends without a saved type error exactly when it started so
and every member named `bid` is a string or `null`. -/
theorem foldl_storeCurrencyMember_flag_eq (ms : List (List Char × JSON)) :
    ∀ st : Decoding CurrencyResponse,
      (ms.foldl storeCurrencyMember st).2 =
        (st.2 && ms.all fun m => !fieldMatches "bid" m.1 || storableInString m.2) := by
  induction ms with
  | nil => intro st; simp
  | cons m ms ih =>
    intro st
    rw [List.foldl_cons, ih]
    obtain ⟨key, v⟩ := m
    by_cases hm : fieldMatches "bid" key = true
    · cases v <;> simp [storeCurrencyMember, hm, storableInString, Bool.and_assoc]
    · simp [storeCurrencyMember, hm]

theorem storeCurrency_flag_eq (st : Decoding CurrencyResponse) (v : JSON) :
    (storeCurrency st v).2 = (st.2 && storableInCurrency v) := by
  cases v with
  | obj ms => exact foldl_storeCurrencyMember_flag_eq ms st
  | null => simp [storeCurrency, storableInCurrency]
  | bool b => simp [storeCurrency, storableInCurrency]
  | num l => simp [storeCurrency, storableInCurrency]
  | str s => simp [storeCurrency, storableInCurrency]
  | arr l => simp [storeCurrency, storableInCurrency]

theorem foldl_storeAPIMember_flag_eq (ms : List (List Char × JSON)) :
    ∀ st : Decoding APIResponse,
      (ms.foldl storeAPIMember st).2 =
        (st.2 && ms.all fun m => !fieldMatches "USDBRL" m.1 || storableInCurrency m.2) := by
  induction ms with
  | nil => intro st; simp
  | cons m ms ih =>
    intro st
    rw [List.foldl_cons, ih]
    obtain ⟨key, v⟩ := m
    by_cases hm : fieldMatches "USDBRL" key = true
    · simp [storeAPIMember, hm, storeCurrency_flag_eq, Bool.and_assoc]
    · simp [storeAPIMember, hm]

theorem storeAPI_flag_eq (st : Decoding APIResponse) (v : JSON) :
    (storeAPI st v).2 = (st.2 && storableInAPI v) := by
  cases v with
  | obj ms => exact foldl_storeAPIMember_flag_eq ms st
  | null => simp [storeAPI, storableInAPI]
  | bool b => simp [storeAPI, storableInAPI]
  | num l => simp [storeAPI, storableInAPI]
  | str s => simp [storeAPI, storableInAPI]
  | arr l => simp [storeAPI, storableInAPI]

/-- The decoder of the client, by what the scanner reads. -/
theorem decodeCurrencyResponse_eq (body : String) :
    decodeCurrencyResponse body =
      match readValue body.data with
      | none => Except.error JSONError.malformed
      | some v =>
        if storableInCurrency v then Except.ok (storeCurrency ({ Bid := "" }, true) v).1
        else Except.error JSONError.mismatch := by
  unfold decodeCurrencyResponse
  cases readValue body.data with
  | none => rfl
  | some v => simp [storeCurrency_flag_eq]

/-- The decoder of the server, by what the scanner reads. -/
theorem decodeAPIResponse_eq (body : String) :
    decodeAPIResponse body =
      match readValue body.data with
      | none => Except.error JSONError.malformed
      | some v =>
        if storableInAPI v then
          Except.ok (storeAPI ({ USDBRL := { Bid := "" } }, true) v).1
        else Except.error JSONError.mismatch := by
  unfold decodeAPIResponse
  cases readValue body.data with
  | none => rfl
  | some v => simp [storeAPI_flag_eq]

/-! ## Supporting lemmas: the outbound call -/

theorem clientDo_of_open (url : String) (ctx : Context) (now : Nat) (up : Upstream)
    (h : ctx.err (now + up.after) = none) :
    clientDo url ctx now up = (up.result, now + up.after) := by
  unfold clientDo
  unfold Context.err at h
  cases hd : ctx.doneAt with
  | none => rfl
  | some p =>
    obtain ⟨t, e⟩ := p
    rw [hd] at h
    by_cases hle : t ≤ now + up.after
    · simp [hle] at h
    · simp [hle]

/-- A context that is open at an instant was open at every earlier one. -/
theorem err_none_of_le (ctx : Context) (t1 t2 : Nat) (hle : t1 ≤ t2)
    (h : ctx.err t2 = none) : ctx.err t1 = none := by
  unfold Context.err at h ⊢
  cases hd : ctx.doneAt with
  | none => rfl
  | some p =>
    obtain ⟨t, e⟩ := p
    rw [hd] at h
    dsimp only at h ⊢
    by_cases h2 : t ≤ t2
    · simp [h2] at h
    · have : ¬ t ≤ t1 := by omega
      simp [this]

theorem readBody_of_open (ctx : Context) (now : Nat) (a : Answer)
    (h : ctx.err (now + a.bodyAfter) = none) :
    readBody ctx now a =
      (match a.bodyFault with
        | some cause => Except.error cause
        | none => Except.ok a.body, now + a.bodyAfter) := by
  unfold readBody
  unfold Context.err at h
  cases hd : ctx.doneAt with
  | none => cases a.bodyFault <;> rfl
  | some p =>
    obtain ⟨t, e⟩ := p
    rw [hd] at h
    by_cases hle : t ≤ now + a.bodyAfter
    · simp [hle] at h
    · cases hf : a.bodyFault <;> simp [hle]

/-! ## Supporting lemmas: the scopes of the handler -/

/-- The fetch scope is open at an instant before its deadline that the
cancellation of the request, if any, has not reached. -/
theorem fetchScope_open (w : Server.World) (t : Nat)
    (hfast : t < w.now + Server.timeoutMaxCallTheDollarQuoteAPI)
    (hconn : ∀ tc, w.requestCancelledAt = some tc → t < tc) :
    (Server.fetchScope w).err t = none := by
  unfold Server.fetchScope Server.requestContext withTimeout Context.err
  cases hc : w.requestCancelledAt with
  | none =>
    have : ¬ (w.now + Server.timeoutMaxCallTheDollarQuoteAPI ≤ t) := by omega
    simp [Context.doneAt, earlier, this]
  | some tc =>
    have h1 : ¬ (tc ≤ t) := by have := hconn tc hc; omega
    have h2 : ¬ (w.now + Server.timeoutMaxCallTheDollarQuoteAPI ≤ t) := by omega
    by_cases hle : tc ≤ w.now + Server.timeoutMaxCallTheDollarQuoteAPI
    · simp [Context.doneAt, earlier, hle, h1]
    · simp [Context.doneAt, earlier, hle, h2]

/-- The persist scope is done at the `select` of `saveBid` exactly when the
pause since its creation has reached the persist timeout. -/
theorem saveScope_err (w : Server.World) (t : Nat) :
    (Server.saveScope w t).err (Server.saveInstant w t) =
      if Server.timeoutMaxPersistDataBase ≤ w.pauseBeforeSave
      then some CtxErr.deadlineExceeded else none := by
  simp [Server.saveScope, Server.saveInstant, withTimeout, Context.err, Context.doneAt, earlier]

/-- What the server's `fetchBid` returns for an answer with status 200 whose
body is complete, and not broken off, while its context is open. -/
theorem server_fetchBid_of_open (ctx : Context) (now after late : Nat) (body : String)
    (hopen : ctx.err (now + after + late) = none) :
    (Server.fetchBid ctx now (Upstream.answers after
        { status := 200, body := body, bodyAfter := late, bodyFault := none })).result =
      match decodeAPIResponse body with
      | Except.error e => Except.error (FetchError.decode e)
      | Except.ok r => Except.ok r.USDBRL.Bid := by
  have hdo := clientDo_of_open Server.sourceURL ctx now
    (Upstream.answers after
      { status := 200, body := body, bodyAfter := late, bodyFault := none })
    (err_none_of_le ctx _ _ (Nat.le_add_right _ _) hopen)
  have hrd := readBody_of_open ctx (now + after)
    { status := 200, body := body, bodyAfter := late, bodyFault := none } hopen
  simp only [Server.fetchBid, newRequest, hdo, Upstream.result, Upstream.after, hrd]
  cases decodeAPIResponse body <;> simp

/-- What the client's `fetchBid` returns for an answer with status 200 whose
body is complete, and not broken off, while its context is open. -/
theorem client_fetchBid_of_open (ctx : Context) (now after late : Nat) (body : String)
    (hopen : ctx.err (now + after + late) = none) :
    (Client.fetchBid ctx now (Upstream.answers after
        { status := 200, body := body, bodyAfter := late, bodyFault := none })).result =
      match decodeCurrencyResponse body with
      | Except.error e => Except.error (FetchError.decode e)
      | Except.ok r => Except.ok r.Bid := by
  have hdo := clientDo_of_open Client.serverURL ctx now
    (Upstream.answers after
      { status := 200, body := body, bodyAfter := late, bodyFault := none })
    (err_none_of_le ctx _ _ (Nat.le_add_right _ _) hopen)
  have hrd := readBody_of_open ctx (now + after)
    { status := 200, body := body, bodyAfter := late, bodyFault := none } hopen
  simp only [Client.fetchBid, newRequest, hdo, Upstream.result, Upstream.after, hrd]
  cases decodeCurrencyResponse body <;> simp

/-- The decoder of the server on a body of the expected shape. -/
theorem decodeAPIResponse_of_shape (body bid : String) (ms ims : List (List Char × JSON))
    (k k2 : List Char)
    (hbody : readValue body.data = some (JSON.obj ms))
    (hq : (ms.filter fun m => fieldMatches "USDBRL" m.1) = [(k, JSON.obj ims)])
    (hb : (ims.filter fun m => fieldMatches "bid" m.1) = [(k2, JSON.str bid.data)]) :
    decodeAPIResponse body = Except.ok { USDBRL := { Bid := bid } } := by
  have hk : fieldMatches "USDBRL" k = true := by
    have hmem : (k, JSON.obj ims) ∈ ms.filter fun m => fieldMatches "USDBRL" m.1 := by
      rw [hq]; simp
    simpa using (List.mem_filter.mp hmem).2
  have hk2 : fieldMatches "bid" k2 = true := by
    have hmem : (k2, JSON.str bid.data) ∈ ims.filter fun m => fieldMatches "bid" m.1 := by
      rw [hb]; simp
    simpa using (List.mem_filter.mp hmem).2
  simp only [decodeAPIResponse, hbody, storeAPI]
  rw [foldl_storeAPIMember_filter, hq]
  simp only [List.foldl_cons, List.foldl_nil, storeAPIMember, hk, if_true, storeCurrency]
  rw [foldl_storeCurrencyMember_filter, hb]
  simp [storeCurrencyMember, hk2]

/-! ## Supporting lemmas: the ways `fetchBid` fails -/

/-- The causes of a failed fetch in the server. A quote source that takes
200ms or longer makes `fetchBid` return, at the deadline, the error of the
expired scope; a transport failure, a status other than 200, a body that is
broken off and a body the decoder rejects, each arriving while the scope is
open, make it return the matching error; a body that is not complete when the
scope expires makes it return, at the deadline, a decode error with the error
of the scope. -/
theorem server_fetchBid_error_causes (w : Server.World) :
    (w.requestCancelledAt = none →
      Server.timeoutMaxCallTheDollarQuoteAPI ≤ w.upstream.after →
      (Server.fetchBid (Server.fetchScope w) w.now w.upstream).result =
        Except.error (FetchError.transport
          ("Get \"" ++ Server.sourceURL ++ "\": " ++ CtxErr.deadlineExceeded.text)) ∧
      (Server.fetchBid (Server.fetchScope w) w.now w.upstream).finished =
        w.now + Server.timeoutMaxCallTheDollarQuoteAPI) ∧
    (∀ after cause, w.upstream = Upstream.fails after cause →
      (Server.fetchScope w).err (w.now + after) = none →
      (Server.fetchBid (Server.fetchScope w) w.now w.upstream).result =
        Except.error (FetchError.transport cause)) ∧
    (∀ after a, w.upstream = Upstream.answers after a →
      (Server.fetchScope w).err (w.now + after) = none → a.status ≠ 200 →
      (Server.fetchBid (Server.fetchScope w) w.now w.upstream).result =
        Except.error (FetchError.status a.status)) ∧
    (∀ after a cause, w.upstream = Upstream.answers after a → a.status = 200 →
      (Server.fetchScope w).err (w.now + after + a.bodyAfter) = none →
      a.bodyFault = some cause →
      (Server.fetchBid (Server.fetchScope w) w.now w.upstream).result =
        Except.error (FetchError.decode (JSONError.read cause))) ∧
    (∀ after a, w.upstream = Upstream.answers after a → a.status = 200 →
      w.requestCancelledAt = none →
      after < Server.timeoutMaxCallTheDollarQuoteAPI →
      Server.timeoutMaxCallTheDollarQuoteAPI ≤ after + a.bodyAfter →
      (Server.fetchBid (Server.fetchScope w) w.now w.upstream).result =
        Except.error (FetchError.decode (JSONError.read CtxErr.deadlineExceeded.text)) ∧
      (Server.fetchBid (Server.fetchScope w) w.now w.upstream).finished =
        w.now + Server.timeoutMaxCallTheDollarQuoteAPI) ∧
    (∀ after late body e, w.upstream = Upstream.answers after
        { status := 200, body := body, bodyAfter := late, bodyFault := none } →
      (Server.fetchScope w).err (w.now + after + late) = none →
      decodeAPIResponse body = Except.error e →
      (Server.fetchBid (Server.fetchScope w) w.now w.upstream).result =
        Except.error (FetchError.decode e)) := by
  refine ⟨?_, ?_, ?_, ?_, ?_, ?_⟩
  · intro hreq hslow
    have hd : (Server.fetchScope w).doneAt =
        some (w.now + Server.timeoutMaxCallTheDollarQuoteAPI, CtxErr.deadlineExceeded) := by
      simp [Server.fetchScope, Server.requestContext, withTimeout, Context.doneAt, earlier, hreq]
    have hle : w.now + Server.timeoutMaxCallTheDollarQuoteAPI ≤ w.now + w.upstream.after := by
      omega
    simp [Server.fetchBid, newRequest, clientDo, hd, hle]
  · intro after cause hup hopen
    have hdo := clientDo_of_open Server.sourceURL (Server.fetchScope w) w.now
      (Upstream.fails after cause) hopen
    rw [hup]
    simp only [Server.fetchBid, newRequest, hdo, Upstream.result]
  · intro after a hup hopen hcode
    have hdo := clientDo_of_open Server.sourceURL (Server.fetchScope w) w.now
      (Upstream.answers after a) hopen
    rw [hup]
    simp only [Server.fetchBid, newRequest, hdo, Upstream.result]
    simp [hcode]
  · intro after a cause hup hcode hopen hfault
    have hdo := clientDo_of_open Server.sourceURL (Server.fetchScope w) w.now
      (Upstream.answers after a)
      (err_none_of_le _ _ _ (Nat.le_add_right _ _) hopen)
    have hrd := readBody_of_open (Server.fetchScope w) (w.now + after) a hopen
    rw [hup]
    simp only [Server.fetchBid, newRequest, hdo, Upstream.result, Upstream.after, hrd, hfault]
    simp [hcode]
  · intro after a hup hcode hreq hfast hlate
    have hd : (Server.fetchScope w).doneAt =
        some (w.now + Server.timeoutMaxCallTheDollarQuoteAPI, CtxErr.deadlineExceeded) := by
      simp [Server.fetchScope, Server.requestContext, withTimeout, Context.doneAt, earlier, hreq]
    have hopen : (Server.fetchScope w).err (w.now + after) = none := by
      have : ¬ (w.now + Server.timeoutMaxCallTheDollarQuoteAPI ≤ w.now + after) := by omega
      simp [Context.err, hd, this]
    have hdo := clientDo_of_open Server.sourceURL (Server.fetchScope w) w.now
      (Upstream.answers after a) hopen
    have hle : w.now + Server.timeoutMaxCallTheDollarQuoteAPI ≤ w.now + after + a.bodyAfter := by
      omega
    have hmax : max (w.now + after) (w.now + Server.timeoutMaxCallTheDollarQuoteAPI) =
        w.now + Server.timeoutMaxCallTheDollarQuoteAPI := by
      apply max_eq_right; omega
    rw [hup]
    simp only [Server.fetchBid, newRequest, hdo, Upstream.result, Upstream.after]
    simp [hcode, readBody, hd, hle, hmax]
  · intro after late body e hup hopen hdec
    rw [hup, server_fetchBid_of_open _ _ _ _ _ hopen, hdec]

/-- The causes of a failed fetch in the client: a Responder that takes 10ms or
longer, a Responder that cannot be reached, a status other than 200, a body
that is broken off or late, and a body the decoder rejects. -/
theorem client_fetchBid_error_causes (now : Nat) (up : Upstream) :
    (Client.timeoutMaxResponseAPI ≤ up.after →
      (Client.fetchBid (withTimeout Context.background now Client.timeoutMaxResponseAPI)
        now up).result =
        Except.error (FetchError.transport
          ("Get \"" ++ Client.serverURL ++ "\": " ++ CtxErr.deadlineExceeded.text))) ∧
    (∀ after cause, up = Upstream.fails after cause → after < Client.timeoutMaxResponseAPI →
      (Client.fetchBid (withTimeout Context.background now Client.timeoutMaxResponseAPI)
        now up).result = Except.error (FetchError.transport cause)) ∧
    (∀ after a, up = Upstream.answers after a →
      after < Client.timeoutMaxResponseAPI → a.status ≠ 200 →
      (Client.fetchBid (withTimeout Context.background now Client.timeoutMaxResponseAPI)
        now up).result = Except.error (FetchError.status a.status)) ∧
    (∀ after a cause, up = Upstream.answers after a → a.status = 200 →
      after + a.bodyAfter < Client.timeoutMaxResponseAPI → a.bodyFault = some cause →
      (Client.fetchBid (withTimeout Context.background now Client.timeoutMaxResponseAPI)
        now up).result = Except.error (FetchError.decode (JSONError.read cause))) ∧
    (∀ after a, up = Upstream.answers after a → a.status = 200 →
      after < Client.timeoutMaxResponseAPI →
      Client.timeoutMaxResponseAPI ≤ after + a.bodyAfter →
      (Client.fetchBid (withTimeout Context.background now Client.timeoutMaxResponseAPI)
        now up).result =
        Except.error (FetchError.decode (JSONError.read CtxErr.deadlineExceeded.text))) ∧
    (∀ after late body e, up = Upstream.answers after
        { status := 200, body := body, bodyAfter := late, bodyFault := none } →
      after + late < Client.timeoutMaxResponseAPI →
      decodeCurrencyResponse body = Except.error e →
      (Client.fetchBid (withTimeout Context.background now Client.timeoutMaxResponseAPI)
        now up).result = Except.error (FetchError.decode e)) := by
  have hd : (withTimeout Context.background now Client.timeoutMaxResponseAPI).doneAt =
      some (now + Client.timeoutMaxResponseAPI, CtxErr.deadlineExceeded) := by
    simp [withTimeout, Context.doneAt, earlier]
  have hopen : ∀ t, t < Client.timeoutMaxResponseAPI →
      (withTimeout Context.background now Client.timeoutMaxResponseAPI).err (now + t) =
        none := by
    intro t h
    have : ¬ (now + Client.timeoutMaxResponseAPI ≤ now + t) := by omega
    simp [Context.err, hd, this]
  refine ⟨?_, ?_, ?_, ?_, ?_, ?_⟩
  · intro hslow
    have hle : now + Client.timeoutMaxResponseAPI ≤ now + up.after := by omega
    simp [Client.fetchBid, newRequest, clientDo, hd, hle]
  · intro after cause hup hfast
    have hdo := clientDo_of_open Client.serverURL _ now (Upstream.fails after cause)
      (hopen after hfast)
    rw [hup]
    simp only [Client.fetchBid, newRequest, hdo, Upstream.result]
  · intro after a hup hfast hcode
    have hdo := clientDo_of_open Client.serverURL _ now (Upstream.answers after a)
      (hopen after hfast)
    rw [hup]
    simp only [Client.fetchBid, newRequest, hdo, Upstream.result]
    simp [hcode]
  · intro after a cause hup hcode hfast hfault
    have hdo := clientDo_of_open Client.serverURL _ now (Upstream.answers after a)
      (hopen after (by omega))
    have hrd := readBody_of_open
      (withTimeout Context.background now Client.timeoutMaxResponseAPI) (now + after) a
      (by rw [Nat.add_assoc]; exact hopen _ hfast)
    rw [hup]
    simp only [Client.fetchBid, newRequest, hdo, Upstream.result, Upstream.after, hrd, hfault]
    simp [hcode]
  · intro after a hup hcode hfast hlate
    have hdo := clientDo_of_open Client.serverURL _ now (Upstream.answers after a)
      (hopen after hfast)
    have hle : now + Client.timeoutMaxResponseAPI ≤ now + after + a.bodyAfter := by omega
    rw [hup]
    simp only [Client.fetchBid, newRequest, hdo, Upstream.result, Upstream.after]
    simp [hcode, readBody, hd, hle]
  · intro after late body e hup hfast hdec
    rw [hup, client_fetchBid_of_open _ _ _ _ _
      (by rw [Nat.add_assoc]; exact hopen _ hfast), hdec]

/-- The run with the late body: `fetchBid` returns a decode error that holds
the error of the expired scope, and the handler logs its timeout line and
answers 500. -/
theorem handleCotacao_late_body :
    (Server.fetchBid (Server.fetchScope scenarioLateBody) scenarioLateBody.now
      scenarioLateBody.upstream).result =
      Except.error (FetchError.decode (JSONError.read "context deadline exceeded")) ∧
    (Server.handleCotacao scenarioLateBody emptySink).log =
      ["timeout when making request dollar quote api"] ∧
    (Server.handleCotacao scenarioLateBody emptySink).response.status = 500 ∧
    (Server.handleCotacao scenarioLateBody emptySink).response.body =
      "error when searching for quote: error when decoding JSON: context deadline exceeded\n" := by
  decide

/-! ## C1: a failed fetch -/

/-- C1. Whenever `fetchBid` returns an error, whatever its cause, `handleCotacao`
answers with status 500 and the plain-text body `error when searching for
quote: ` followed by the text of the error (and the line feed `http.Error`
ends a body with); `saveBid` is not called and the sink is as it was. -/
theorem handleCotacao_fetch_error (w : Server.World) (db : Sink) (err : FetchError)
    (h : (Server.fetchBid (Server.fetchScope w) w.now w.upstream).result = Except.error err) :
    (Server.handleCotacao w db).response =
      { status := 500
        header := [("Content-Type", "text/plain; charset=utf-8"),
          ("X-Content-Type-Options", "nosniff")]
        body := "error when searching for quote: " ++ Server.errorText w.libText err ++ "\n" } ∧
    (Server.handleCotacao w db).saved = none ∧
    (Server.handleCotacao w db).db = db := by
  simp [Server.handleCotacao, h, httpError]

/-- Scenario B: the quote source is slower than the fetch deadline. -/
theorem handleCotacao_fetch_error_witness :
    (Server.fetchBid (Server.fetchScope scenarioB) scenarioB.now scenarioB.upstream).result =
      Except.error (FetchError.transport
        "Get \"https://economia.awesomeapi.com.br/json/last/USD-BRL\": context deadline exceeded") ∧
    (Server.handleCotacao scenarioB emptySink).response =
      { status := 500
        header := [("Content-Type", "text/plain; charset=utf-8"),
          ("X-Content-Type-Options", "nosniff")]
        body := "error when searching for quote: " ++ Server.errorText scenarioB.libText
          (FetchError.transport
            "Get \"https://economia.awesomeapi.com.br/json/last/USD-BRL\": context deadline exceeded")
          ++ "\n" } ∧
    (Server.handleCotacao scenarioB emptySink).saved = none ∧
    (Server.handleCotacao scenarioB emptySink).db = emptySink :=
  ⟨by decide, handleCotacao_fetch_error scenarioB emptySink _ (by decide)⟩

/-! ## C2: the response after a successful fetch -/

/-- C2 as stated fails. Both bodies have the stated shape, a `USDBRL` object
with the member `bid` equal to 5.43 next to one other field. Member names are
matched without regard to case and a later member overrides an earlier one:
with the other field `"BID":"9"` the response is `200 {"bid":"9"}`, and with
the other field `"Bid":7` the decoder reports a type error and the response
is 500. -/
theorem handleCotacao_other_case_bid :
    readValue "\x7b\"USDBRL\":\x7b\"bid\":\"5.43\",\"BID\":\"9\"\x7d\x7d".data =
      some (JSON.obj [("USDBRL".data,
        JSON.obj [("bid".data, JSON.str "5.43".data), ("BID".data, JSON.str "9".data)])]) ∧
    (Server.handleCotacao scenarioUpperBid emptySink).response =
      { status := 200
        header := [("Content-Type", "application/json")]
        body := "\x7b\"bid\":\"9\"\x7d" } ∧
    readValue "\x7b\"USDBRL\":\x7b\"bid\":\"5.43\",\"Bid\":7\x7d\x7d".data =
      some (JSON.obj [("USDBRL".data,
        JSON.obj [("bid".data, JSON.str "5.43".data), ("Bid".data, JSON.num "7".data)])]) ∧
    (Server.handleCotacao scenarioNumberBid emptySink).response.status = 500 ∧
    (Server.handleCotacao scenarioNumberBid emptySink).saved = none :=
  ⟨by rfl, by decide, by rfl, by decide, by decide⟩

/-- C2, amended. Let the quote source answer 200, the body complete before the
fetch deadline and before the request is cancelled, with a body that the
scanner reads as a JSON object in which exactly one member is named `USDBRL`,
an object in which exactly one member is named `bid`, the string `bid`; names
are compared as the decoder compares them, without regard to case, and the
other members have other names. Then `handleCotacao` answers with status 200,
the header `Content-Type: application/json` and the body Marshal writes for
`{"bid": bid}`; and a second run with the same request and the same answer of
the source gives the same response whatever differs in its persist stage: the
pauses before `saveBid`, the fault of the sink, the sink itself. -/
theorem handleCotacao_success_response (w w2 : Server.World) (db db2 : Sink)
    (after late : Nat) (body bid : String) (ms ims : List (List Char × JSON))
    (k k2 : List Char)
    (hup : w.upstream = Upstream.answers after
      { status := 200, body := body, bodyAfter := late, bodyFault := none })
    (hfast : after + late < Server.timeoutMaxCallTheDollarQuoteAPI)
    (hconn : ∀ tc, w.requestCancelledAt = some tc → w.now + after + late < tc)
    (hbody : readValue body.data = some (JSON.obj ms))
    (hq : (ms.filter fun m => fieldMatches "USDBRL" m.1) = [(k, JSON.obj ims)])
    (hb : (ims.filter fun m => fieldMatches "bid" m.1) = [(k2, JSON.str bid.data)])
    (hnow : w2.now = w.now) (hreq : w2.requestCancelledAt = w.requestCancelledAt)
    (hsrc : w2.upstream = w.upstream) :
    (Server.handleCotacao w db).response =
      { status := 200
        header := [("Content-Type", "application/json")]
        body := String.mk ("\x7b\"bid\":".data ++ appendString bid.data ++ "\x7d".data) } ∧
    (Server.handleCotacao w2 db2).response = (Server.handleCotacao w db).response := by
  have hopen : (Server.fetchScope w).err (w.now + after + late) = none :=
    fetchScope_open w (w.now + after + late) (by omega) hconn
  have hscope : Server.fetchScope w2 = Server.fetchScope w := by
    simp [Server.fetchScope, Server.requestContext, hnow, hreq]
  have hf : (Server.fetchBid (Server.fetchScope w) w.now w.upstream).result = Except.ok bid := by
    rw [hup, server_fetchBid_of_open _ _ _ _ _ hopen,
      decodeAPIResponse_of_shape body bid ms ims k k2 hbody hq hb]
  have hf2 : (Server.fetchBid (Server.fetchScope w2) w2.now w2.upstream).result =
      Except.ok bid := by
    rw [hscope, hnow, hsrc]; exact hf
  have hr : ∀ (v : Server.World) (d : Sink),
      (Server.fetchBid (Server.fetchScope v) v.now v.upstream).result = Except.ok bid →
      (Server.handleCotacao v d).response =
        { status := 200
          header := [("Content-Type", "application/json")]
          body := String.mk ("\x7b\"bid\":".data ++ appendString bid.data ++ "\x7d".data) } := by
    intro v d hv
    simp [Server.handleCotacao, hv, Server.respondWithJSON, marshalBid, appendString, escapeChar]
  exact ⟨hr w db hf, by rw [hr w2 db2 hf2, hr w db hf]⟩

/-- Scenario A: the body of the quote source holds the bid 5.43 between two
other fields; the response is `200 {"bid":"5.43"}`, also when the sink fails. -/
theorem handleCotacao_success_response_witness :
    (Server.handleCotacao scenarioA emptySink).response =
      { status := 200
        header := [("Content-Type", "application/json")]
        body := "\x7b\"bid\":\"5.43\"\x7d" } ∧
    (Server.handleCotacao scenarioAFault freshSink).response =
      (Server.handleCotacao scenarioA emptySink).response :=
  handleCotacao_success_response scenarioA scenarioAFault emptySink freshSink
    (49 * millisecond) (1 * millisecond)
    "\x7b\"USDBRL\":\x7b\"code\":\"USD\",\"bid\":\"5.43\",\"ask\":\"5.44\"\x7d\x7d" "5.43"
    [("USDBRL".data, JSON.obj [("code".data, JSON.str "USD".data),
      ("bid".data, JSON.str "5.43".data), ("ask".data, JSON.str "5.44".data)])]
    [("code".data, JSON.str "USD".data), ("bid".data, JSON.str "5.43".data),
      ("ask".data, JSON.str "5.44".data)]
    "USDBRL".data "bid".data rfl (by decide) (by decide) (by rfl) (by rfl) (by rfl) rfl rfl rfl

/-! ## C3: the contract of `saveBid` -/

/-- C3. `saveBid` with a scope that is done on entry returns the error of the
scope and leaves the sink as it was; for an expired timeout scope that error
is DeadlineExceeded. With a scope that is not done it executes exactly one
statement, the INSERT of the bid, and returns what the sink returns for it:
on success one row holding the bid is appended, on failure none. In either
case the table has at most one row more than before. -/
theorem saveBid_contract (ctx : Context) (now : Nat) (fault : Option String) (bid : String)
    (db : Sink) :
    (∀ e, ctx.err now = some e →
      Server.saveBid ctx now fault bid db = (some (Server.SaveError.scope e), db)) ∧
    (∀ start d, ctx = withTimeout Context.background start d → start + d ≤ now →
      Server.saveBid ctx now fault bid db =
        (some (Server.SaveError.scope CtxErr.deadlineExceeded), db)) ∧
    (ctx.err now = none →
      (Server.saveBid ctx now fault bid db).2.journal =
        db.journal ++ [{ query := "INSERT INTO currency (bid) VALUES (?)", args := [bid] }] ∧
      (Server.saveBid ctx now fault bid db).1 =
        (execInsert fault now bid db).1.map Server.SaveError.sink ∧
      ((Server.saveBid ctx now fault bid db).1 = none →
        (Server.saveBid ctx now fault bid db).2.rows =
          db.rows ++ [{ id := db.lastId + 1, bid := realAffinity db.toReal bid, created_at := now }]) ∧
      ((Server.saveBid ctx now fault bid db).1 ≠ none →
        (Server.saveBid ctx now fault bid db).2.rows = db.rows)) ∧
    (Server.saveBid ctx now fault bid db).2.rows.length ≤ db.rows.length + 1 := by
  refine ⟨?_, ?_, ?_, ?_⟩
  · intro e he
    simp [Server.saveBid, he]
  · intro start d hctx hle
    subst hctx
    simp [Server.saveBid, withTimeout, Context.err, Context.doneAt, earlier, hle]
  · intro hopen
    cases fault with
    | some e => simp [Server.saveBid, hopen, execInsert, insertStatement, Sink.rows]
    | none =>
      cases hc : db.currency with
      | none => simp [Server.saveBid, hopen, execInsert, insertStatement, Sink.rows, hc]
      | some rows => simp [Server.saveBid, hopen, execInsert, insertStatement, Sink.rows, hc]
  · cases hopen : ctx.err now with
    | some e => simp [Server.saveBid, hopen]
    | none =>
      cases fault with
      | some e => simp [Server.saveBid, hopen, execInsert, Sink.rows]
      | none =>
        cases hc : db.currency with
        | none => simp [Server.saveBid, hopen, execInsert, Sink.rows, hc]
        | some rows => simp [Server.saveBid, hopen, execInsert, Sink.rows, hc]

/-- Both branches of `saveBid` on the empty table: a persist scope created at
instant 0 is not done at 5ms, where the row is inserted, and is done at 10ms,
where the sink is not touched. -/
theorem saveBid_contract_witness :
    (withTimeout Context.background 0 Server.timeoutMaxPersistDataBase).err (5 * millisecond) = none ∧
    (Server.saveBid (withTimeout Context.background 0 Server.timeoutMaxPersistDataBase)
        (5 * millisecond) none "5.43" emptySink).2.journal =
      emptySink.journal ++ [{ query := "INSERT INTO currency (bid) VALUES (?)", args := ["5.43"] }] ∧
    0 + Server.timeoutMaxPersistDataBase ≤ 10 * millisecond ∧
    Server.saveBid (withTimeout Context.background 0 Server.timeoutMaxPersistDataBase)
        (10 * millisecond) none "5.43" emptySink =
      (some (Server.SaveError.scope CtxErr.deadlineExceeded), emptySink) :=
  ⟨by decide,
    ((saveBid_contract (withTimeout Context.background 0 Server.timeoutMaxPersistDataBase)
      (5 * millisecond) none "5.43" emptySink).2.2.1 (by decide)).1,
    by decide,
    (saveBid_contract (withTimeout Context.background 0 Server.timeoutMaxPersistDataBase)
      (10 * millisecond) none "5.43" emptySink).2.1 0 Server.timeoutMaxPersistDataBase rfl
      (by decide)⟩

/-! ## C4: the persist scope does not hang on the request -/

/-- `saveBid` under the persist scope of the handler: whether the INSERT is
attempted depends on the pause since the scope was created and on nothing
else. -/
theorem saveBid_saveScope (w : Server.World) (t : Nat) (bid : String) (db : Sink) :
    Server.saveBid (Server.saveScope w t) (Server.saveInstant w t) w.sinkFault bid db =
      if Server.timeoutMaxPersistDataBase ≤ w.pauseBeforeSave
      then (some (Server.SaveError.scope CtxErr.deadlineExceeded), db)
      else ((execInsert w.sinkFault (Server.saveInstant w t) bid db).1.map Server.SaveError.sink,
        (execInsert w.sinkFault (Server.saveInstant w t) bid db).2) := by
  unfold Server.saveBid
  rw [saveScope_err]
  split_ifs <;> rfl

/-- The instant of an INSERT shows in the timestamp of the new row only. -/
theorem execInsert_instant (fault : Option String) (t1 t2 : Nat) (bid : String) (db : Sink) :
    (execInsert fault t1 bid db).1 = (execInsert fault t2 bid db).1 ∧
    (execInsert fault t1 bid db).2.journal = (execInsert fault t2 bid db).2.journal ∧
    (execInsert fault t1 bid db).2.lastId = (execInsert fault t2 bid db).2.lastId ∧
    (execInsert fault t1 bid db).2.rows.map Row.bid =
      (execInsert fault t2 bid db).2.rows.map Row.bid ∧
    (execInsert fault t1 bid db).2.rows.map Row.id =
      (execInsert fault t2 bid db).2.rows.map Row.id := by
  cases fault with
  | some e => simp [execInsert]
  | none =>
    cases hc : db.currency with
    | none => simp [execInsert, hc]
    | some rows => simp [execInsert, hc, Sink.rows]

/-- C4. The persist scope is derived from the background context with the
fixed duration of 10ms. For two runs on the same sink in which the fetch
returns the same bid, with the same pause before `saveBid` and the same
behaviour of the sink, and in which the cancellation of the request, the
instant of the request and the time the fetch took are arbitrary: `saveBid`
returns the same, the same statements reach the sink, the same ids and bids
are in the table, and the response is the same; when the two runs reach
`saveBid` at the same instant the sinks are equal. In particular the quote is
inserted whenever the pause is under 10ms and the sink accepts the row,
whether or not the caller has gone. -/
theorem persist_independent_of_request (w1 w2 : Server.World) (db : Sink) (bid : String)
    (h1 : (Server.fetchBid (Server.fetchScope w1) w1.now w1.upstream).result = Except.ok bid)
    (h2 : (Server.fetchBid (Server.fetchScope w2) w2.now w2.upstream).result = Except.ok bid)
    (hpause : w1.pauseBeforeSave = w2.pauseBeforeSave)
    (hsink : w1.sinkFault = w2.sinkFault) :
    (∀ t, Server.saveScope w1 t =
      Context.withDeadline Context.background (Server.scopeInstant w1 t + 10 * millisecond)) ∧
    (Server.handleCotacao w1 db).saved = (Server.handleCotacao w2 db).saved ∧
    (Server.handleCotacao w1 db).response = (Server.handleCotacao w2 db).response ∧
    (Server.handleCotacao w1 db).db.journal = (Server.handleCotacao w2 db).db.journal ∧
    (Server.handleCotacao w1 db).db.rows.map Row.id =
      (Server.handleCotacao w2 db).db.rows.map Row.id ∧
    (Server.handleCotacao w1 db).db.rows.map Row.bid =
      (Server.handleCotacao w2 db).db.rows.map Row.bid ∧
    (Server.saveInstant w1 (Server.fetchBid (Server.fetchScope w1) w1.now w1.upstream).finished =
        Server.saveInstant w2 (Server.fetchBid (Server.fetchScope w2) w2.now w2.upstream).finished →
      (Server.handleCotacao w1 db).db = (Server.handleCotacao w2 db).db) ∧
    (w1.pauseBeforeSave < Server.timeoutMaxPersistDataBase → w1.sinkFault = none →
      ∀ rows, db.currency = some rows →
        (Server.handleCotacao w1 db).saved = some none ∧
        (Server.handleCotacao w1 db).db.rows = rows ++
          [{ id := db.lastId + 1, bid := realAffinity db.toReal bid
             created_at := Server.saveInstant w1
               (Server.fetchBid (Server.fetchScope w1) w1.now w1.upstream).finished }]) := by
  have e1 : ∀ (w : Server.World),
      (Server.fetchBid (Server.fetchScope w) w.now w.upstream).result = Except.ok bid →
      (Server.handleCotacao w db).saved = some (Server.saveBid
        (Server.saveScope w (Server.fetchBid (Server.fetchScope w) w.now w.upstream).finished)
        (Server.saveInstant w (Server.fetchBid (Server.fetchScope w) w.now w.upstream).finished)
        w.sinkFault bid db).1 ∧
      (Server.handleCotacao w db).db = (Server.saveBid
        (Server.saveScope w (Server.fetchBid (Server.fetchScope w) w.now w.upstream).finished)
        (Server.saveInstant w (Server.fetchBid (Server.fetchScope w) w.now w.upstream).finished)
        w.sinkFault bid db).2 ∧
      (Server.handleCotacao w db).response = Server.respondWithJSON 200 bid := by
    intro w hw
    simp [Server.handleCotacao, hw]
  obtain ⟨s1, d1, r1⟩ := e1 w1 h1
  obtain ⟨s2, d2, r2⟩ := e1 w2 h2
  rw [saveBid_saveScope] at s1 d1 s2 d2
  have hi := execInsert_instant w2.sinkFault
    (Server.saveInstant w1 (Server.fetchBid (Server.fetchScope w1) w1.now w1.upstream).finished)
    (Server.saveInstant w2 (Server.fetchBid (Server.fetchScope w2) w2.now w2.upstream).finished)
    bid db
  refine ⟨?_, ?_, ?_, ?_, ?_, ?_, ?_, ?_⟩
  · intro t
    simp [Server.saveScope, withTimeout, Server.timeoutMaxPersistDataBase]
  · rw [s1, s2, hpause, hsink]
    split_ifs
    · rfl
    · simp only [hi.1]
  · rw [r1, r2]
  · rw [d1, d2, hpause, hsink]
    split_ifs
    · rfl
    · exact hi.2.1
  · rw [d1, d2, hpause, hsink]
    split_ifs
    · rfl
    · exact hi.2.2.2.2
  · rw [d1, d2, hpause, hsink]
    split_ifs
    · rfl
    · exact hi.2.2.2.1
  · intro ht
    rw [d1, d2, hpause, hsink, ht]
  · intro hp hs rows hrows
    have hnot : ¬ (Server.timeoutMaxPersistDataBase ≤ w1.pauseBeforeSave) := by omega
    rw [s1, d1]
    simp [hnot, hs, execInsert, hrows, Sink.rows]

/-- Scenario A with and without a caller that disconnects after the fetch: the
request is cancelled when `saveBid` runs, and the same row is inserted. -/
theorem persist_independent_of_request_witness :
    (Server.fetchBid (Server.fetchScope scenarioGone) scenarioGone.now
      scenarioGone.upstream).result = Except.ok "5.43" ∧
    (Server.fetchBid (Server.fetchScope scenarioA) scenarioA.now
      scenarioA.upstream).result = Except.ok "5.43" ∧
    (Server.requestContext scenarioGone).err (Server.saveInstant scenarioGone
      (Server.fetchBid (Server.fetchScope scenarioGone) scenarioGone.now
        scenarioGone.upstream).finished) = some CtxErr.canceled ∧
    (Server.handleCotacao scenarioGone emptySink).db =
      (Server.handleCotacao scenarioA emptySink).db ∧
    (Server.handleCotacao scenarioGone emptySink).db.rows =
      [{ id := 1, bid := SqlValue.real 0x4015B851EB851EB8, created_at := 50002000 }] :=
  ⟨by decide, by decide, by decide,
    (persist_independent_of_request scenarioGone scenarioA emptySink "5.43" (by decide)
      (by decide) rfl rfl).2.2.2.2.2.2.1 (by decide),
    ((persist_independent_of_request scenarioGone scenarioA emptySink "5.43" (by decide)
      (by decide) rfl rfl).2.2.2.2.2.2.2 (by decide) rfl [] rfl).2⟩

/-! ## C5: the log line of a persist timeout -/

/-- What the handler logs when the fetch succeeds and `saveBid` fails: the
timeout line hangs on the error of the fetch scope at that instant, and not on
the persist scope or on the error `saveBid` returned. -/
theorem persist_failure_log (w : Server.World) (db : Sink) (bid : String)
    (err : Server.SaveError)
    (hf : (Server.fetchBid (Server.fetchScope w) w.now w.upstream).result = Except.ok bid)
    (hs : (Server.handleCotacao w db).saved = some (some err)) :
    ∃ instant,
      (Server.handleCotacao w db).log =
        (Server.fetchBid (Server.fetchScope w) w.now w.upstream).log ++
          (if (Server.fetchScope w).err instant = some CtxErr.deadlineExceeded
           then ["timeout when saving data to database"] else []) ++
          ["error saving to database: " ++ err.text] := by
  simp only [Server.handleCotacao, hf] at hs ⊢
  simp only [Option.some.injEq] at hs
  rw [hs]
  cases err with
  | scope e =>
    exact ⟨Server.saveInstant w
      (Server.fetchBid (Server.fetchScope w) w.now w.upstream).finished, by simp⟩
  | sink cause =>
    exact ⟨Server.saveInstant w
      (Server.fetchBid (Server.fetchScope w) w.now w.upstream).finished + w.execTime, by simp⟩

/-- C5, the code at scenario C. The fetch succeeds after 50ms, the persist
scope has expired when `saveBid` is entered, `saveBid` returns
DeadlineExceeded and inserts nothing, and the log holds no line `timeout when
saving data to database`: the handler tests the fetch scope, which has not
expired at 61ms, where it should test the persist scope. -/
theorem handleCotacao_persist_timeout_unlogged :
    (Server.fetchBid (Server.fetchScope scenarioC) scenarioC.now scenarioC.upstream).result =
      Except.ok "5.43" ∧
    (Server.handleCotacao scenarioC emptySink).saved =
      some (some (Server.SaveError.scope CtxErr.deadlineExceeded)) ∧
    (Server.handleCotacao scenarioC emptySink).db = emptySink ∧
    "timeout when saving data to database" ∉ (Server.handleCotacao scenarioC emptySink).log ∧
    (Server.handleCotacao scenarioC emptySink).log =
      ["data received from the API: \x7bUSDBRL:\x7bBid:5.43\x7d\x7d",
        "error saving to database: context deadline exceeded"] :=
  ⟨by decide, by decide, by rfl, by decide, by decide⟩

/-! ## C6: what the decoders reject and what they accept -/

/-- C6 as stated fails: for the bodies `{}` and `{"USDBRL":{}}` the server's
`fetchBid` returns no error but the empty string as quote, and so does the
client's for `{}`. -/
theorem fetchBid_accepts_missing_fields :
    (Server.fetchBid Context.background 0
      (Upstream.answers 0
        { status := 200, body := "\x7b\x7d", bodyAfter := 0, bodyFault := none })).result = Except.ok "" ∧
    (Server.fetchBid Context.background 0
      (Upstream.answers 0
        { status := 200, body := "\x7b\"USDBRL\":\x7b\x7d\x7d", bodyAfter := 0, bodyFault := none })).result = Except.ok "" ∧
    (Client.fetchBid Context.background 0
      (Upstream.answers 0
        { status := 200, body := "\x7b\x7d", bodyAfter := 0, bodyFault := none })).result = Except.ok "" := by
  decide

theorem storableInCurrency_false_of_member (ms : List (List Char × JSON)) (k : List Char)
    (v : JSON) (hmem : (k, v) ∈ ms) (hk : fieldMatches "bid" k = true)
    (hv : storableInString v = false) : storableInCurrency (JSON.obj ms) = false := by
  cases h : storableInCurrency (JSON.obj ms) with
  | false => rfl
  | true =>
    simp only [storableInCurrency, List.all_eq_true] at h
    have := h (k, v) hmem
    simp [hk, hv] at this

theorem storableInAPI_false_of_member (ms : List (List Char × JSON)) (k : List Char)
    (v : JSON) (hmem : (k, v) ∈ ms) (hk : fieldMatches "USDBRL" k = true)
    (hv : storableInCurrency v = false) : storableInAPI (JSON.obj ms) = false := by
  cases h : storableInAPI (JSON.obj ms) with
  | false => rfl
  | true =>
    simp only [storableInAPI, List.all_eq_true] at h
    have := h (k, v) hmem
    simp [hk, hv] at this

/-- C6, amended. For an answer with status 200 whose body is complete, and not
broken off, while the context is open, `fetchBid` of the server and of the
client return a decode error and no quote: when the body does not start with
a JSON value (malformed text, or nested deeper than 10000); and, with a type
error, exactly when the value cannot be stored, which is when it is neither
an object nor `null`, when a `bid` member is neither a string nor `null`, and
for the server also when a `USDBRL` member is neither an object nor `null`;
and in no other case. Every other value is accepted: when it holds no string member `bid` (for the
server, in an object member `USDBRL`), `fetchBid` returns the empty string
and no error; and a quote that is not empty is returned only when the body
holds it in such a member. -/
theorem fetchBid_decode_contract (ctx : Context) (now after late : Nat) (body : String)
    (hopen : ctx.err (now + after + late) = none) :
    (readValue body.data = none →
      (Server.fetchBid ctx now (Upstream.answers after
        { status := 200, body := body, bodyAfter := late, bodyFault := none })).result =
        Except.error (FetchError.decode JSONError.malformed) ∧
      (Client.fetchBid ctx now (Upstream.answers after
        { status := 200, body := body, bodyAfter := late, bodyFault := none })).result =
        Except.error (FetchError.decode JSONError.malformed)) ∧
    (∀ v, readValue body.data = some v →
      ((Server.fetchBid ctx now (Upstream.answers after
          { status := 200, body := body, bodyAfter := late, bodyFault := none })).result =
          Except.error (FetchError.decode JSONError.mismatch) ↔ storableInAPI v = false) ∧
      ((Client.fetchBid ctx now (Upstream.answers after
          { status := 200, body := body, bodyAfter := late, bodyFault := none })).result =
          Except.error (FetchError.decode JSONError.mismatch) ↔
        storableInCurrency v = false)) ∧
    (∀ v, readValue body.data = some v → v ≠ JSON.null → (∀ ms, v ≠ JSON.obj ms) →
      (Server.fetchBid ctx now (Upstream.answers after
        { status := 200, body := body, bodyAfter := late, bodyFault := none })).result =
        Except.error (FetchError.decode JSONError.mismatch) ∧
      (Client.fetchBid ctx now (Upstream.answers after
        { status := 200, body := body, bodyAfter := late, bodyFault := none })).result =
        Except.error (FetchError.decode JSONError.mismatch)) ∧
    (∀ ms k v, readValue body.data = some (JSON.obj ms) →
      (k, v) ∈ ms → fieldMatches "USDBRL" k = true → v ≠ JSON.null →
      (∀ ims, v ≠ JSON.obj ims) →
      (Server.fetchBid ctx now (Upstream.answers after
        { status := 200, body := body, bodyAfter := late, bodyFault := none })).result =
        Except.error (FetchError.decode JSONError.mismatch)) ∧
    (∀ ms ims k k2 v, readValue body.data = some (JSON.obj ms) →
      (k, JSON.obj ims) ∈ ms → fieldMatches "USDBRL" k = true →
      (k2, v) ∈ ims → fieldMatches "bid" k2 = true → storableInString v = false →
      (Server.fetchBid ctx now (Upstream.answers after
        { status := 200, body := body, bodyAfter := late, bodyFault := none })).result =
        Except.error (FetchError.decode JSONError.mismatch)) ∧
    (∀ ms k v, readValue body.data = some (JSON.obj ms) →
      (k, v) ∈ ms → fieldMatches "bid" k = true → storableInString v = false →
      (Client.fetchBid ctx now (Upstream.answers after
        { status := 200, body := body, bodyAfter := late, bodyFault := none })).result =
        Except.error (FetchError.decode JSONError.mismatch)) ∧
    (∀ v, readValue body.data = some v → storableInAPI v = true →
      (∀ ms k ims k2 s, v = JSON.obj ms → (k, JSON.obj ims) ∈ ms →
        fieldMatches "USDBRL" k = true → (k2, JSON.str s) ∈ ims →
        fieldMatches "bid" k2 = false) →
      (Server.fetchBid ctx now (Upstream.answers after
        { status := 200, body := body, bodyAfter := late, bodyFault := none })).result =
        Except.ok "") ∧
    (∀ v, readValue body.data = some v → storableInCurrency v = true →
      (∀ ms k s, v = JSON.obj ms → (k, JSON.str s) ∈ ms → fieldMatches "bid" k = false) →
      (Client.fetchBid ctx now (Upstream.answers after
        { status := 200, body := body, bodyAfter := late, bodyFault := none })).result =
        Except.ok "") ∧
    (∀ bid, (Server.fetchBid ctx now (Upstream.answers after
        { status := 200, body := body, bodyAfter := late, bodyFault := none })).result =
        Except.ok bid →
      bid ≠ "" →
      ∃ ms k ims k2, readValue body.data = some (JSON.obj ms) ∧
        (k, JSON.obj ims) ∈ ms ∧ fieldMatches "USDBRL" k = true ∧
        (k2, JSON.str bid.data) ∈ ims ∧ fieldMatches "bid" k2 = true) ∧
    (∀ bid, (Client.fetchBid ctx now (Upstream.answers after
        { status := 200, body := body, bodyAfter := late, bodyFault := none })).result =
        Except.ok bid →
      bid ≠ "" →
      ∃ ms k, readValue body.data = some (JSON.obj ms) ∧
        (k, JSON.str bid.data) ∈ ms ∧ fieldMatches "bid" k = true) ∧
    ((∃ e, (Server.fetchBid ctx now (Upstream.answers after
        { status := 200, body := body, bodyAfter := late, bodyFault := none })).result =
        Except.error e) ↔
      (readValue body.data = none ∨
        ∃ v, readValue body.data = some v ∧ storableInAPI v = false)) ∧
    ((∃ e, (Client.fetchBid ctx now (Upstream.answers after
        { status := 200, body := body, bodyAfter := late, bodyFault := none })).result =
        Except.error e) ↔
      (readValue body.data = none ∨
        ∃ v, readValue body.data = some v ∧ storableInCurrency v = false)) := by
  rw [server_fetchBid_of_open ctx now after late body hopen,
    client_fetchBid_of_open ctx now after late body hopen]
  refine ⟨?_, ?_, ?_, ?_, ?_, ?_, ?_, ?_, ?_, ?_, ?_, ?_⟩
  · intro h
    simp [decodeAPIResponse, decodeCurrencyResponse, h]
  · intro v h
    rw [decodeAPIResponse_eq, decodeCurrencyResponse_eq, h]
    constructor
    · by_cases hst : storableInAPI v = true
      · simp [hst]
      · simp [hst]
    · by_cases hst : storableInCurrency v = true
      · simp [hst]
      · simp [hst]
  · intro v h hnull hobj
    cases v with
    | null => exact absurd rfl hnull
    | obj ms => exact absurd rfl (hobj ms)
    | bool b => simp [decodeAPIResponse, decodeCurrencyResponse, h, storeAPI, storeCurrency]
    | num l => simp [decodeAPIResponse, decodeCurrencyResponse, h, storeAPI, storeCurrency]
    | str s => simp [decodeAPIResponse, decodeCurrencyResponse, h, storeAPI, storeCurrency]
    | arr l => simp [decodeAPIResponse, decodeCurrencyResponse, h, storeAPI, storeCurrency]
  · intro ms k v h hmem hk hnull hobj
    have hv : storableInCurrency v = false := by
      cases v with
      | null => exact absurd rfl hnull
      | obj ims => exact absurd rfl (hobj ims)
      | bool b => rfl
      | num l => rfl
      | str s => rfl
      | arr l => rfl
    rw [decodeAPIResponse_eq, h]
    simp [storableInAPI_false_of_member ms k v hmem hk hv]
  · intro ms ims k k2 v h hmem hk hmem2 hk2 hv
    have := foldl_storeAPIMember_mismatch ms ims k k2 v hmem hk hmem2 hk2 hv
      ({ USDBRL := { Bid := "" } }, true)
    simp [decodeAPIResponse, h, storeAPI, this]
  · intro ms k v h hmem hk hv
    have := foldl_storeCurrencyMember_mismatch ms k v hmem hk hv ({ Bid := "" }, true)
    simp [decodeCurrencyResponse, h, storeCurrency, this]
  · intro v h hst hno
    rw [decodeAPIResponse_eq, h]
    simp only [hst, if_true]
    cases v with
    | obj ms =>
      rcases foldl_storeAPIMember_source ms ({ USDBRL := { Bid := "" } }, true) with
        h0 | ⟨k, ims, k2, hk, hf, hk2, hf2⟩
      · simp only [storeAPI]
        rw [h0]
      · have := hno ms k ims k2 _ rfl hk hf hk2
        rw [this] at hf2
        exact absurd hf2 (by simp)
    | null => rfl
    | bool b => simp [storableInAPI] at hst
    | num l => simp [storableInAPI] at hst
    | str s => simp [storableInAPI] at hst
    | arr l => simp [storableInAPI] at hst
  · intro v h hst hno
    rw [decodeCurrencyResponse_eq, h]
    simp only [hst, if_true]
    cases v with
    | obj ms =>
      rcases foldl_storeCurrencyMember_source ms ({ Bid := "" }, true) with
        h0 | ⟨k, hk, hf⟩
      · simp only [storeCurrency]
        rw [h0]
      · have := hno ms k _ rfl hk
        rw [this] at hf
        exact absurd hf (by simp)
    | null => rfl
    | bool b => simp [storableInCurrency] at hst
    | num l => simp [storableInCurrency] at hst
    | str s => simp [storableInCurrency] at hst
    | arr l => simp [storableInCurrency] at hst
  · intro bid h hne
    simp only [decodeAPIResponse] at h
    cases hv : readValue body.data with
    | none => simp [hv] at h
    | some v =>
      rw [hv] at h
      cases v with
      | obj ms =>
        simp only [storeAPI] at h
        split_ifs at h with hflag
        simp only [Except.ok.injEq] at h
        rcases foldl_storeAPIMember_source ms ({ USDBRL := { Bid := "" } }, true) with
          h0 | ⟨k, ims, k2, hk, hf, hk2, hf2⟩
        · rw [h] at h0
          exact absurd h0 hne
        · rw [h] at hk2
          exact ⟨ms, k, ims, k2, rfl, hk, hf, hk2, hf2⟩
      | null =>
        simp [storeAPI] at h
        exact absurd h.symm hne
      | bool b => simp [storeAPI] at h
      | num l => simp [storeAPI] at h
      | str s => simp [storeAPI] at h
      | arr l => simp [storeAPI] at h
  · intro bid h hne
    simp only [decodeCurrencyResponse] at h
    cases hv : readValue body.data with
    | none => simp [hv] at h
    | some v =>
      rw [hv] at h
      cases v with
      | obj ms =>
        simp only [storeCurrency] at h
        split_ifs at h with hflag
        simp only [Except.ok.injEq] at h
        rcases foldl_storeCurrencyMember_source ms ({ Bid := "" }, true) with
          h0 | ⟨k, hk, hf⟩
        · rw [h] at h0
          exact absurd h0 hne
        · rw [h] at hk
          exact ⟨ms, k, rfl, hk, hf⟩
      | null =>
        simp [storeCurrency] at h
        exact absurd h.symm hne
      | bool b => simp [storeCurrency] at h
      | num l => simp [storeCurrency] at h
      | str s => simp [storeCurrency] at h
      | arr l => simp [storeCurrency] at h
  · rw [decodeAPIResponse_eq]
    cases hv : readValue body.data with
    | none => simp
    | some v =>
      by_cases hst : storableInAPI v = true
      · simp [hst]
      · simp [hst]
  · rw [decodeCurrencyResponse_eq]
    cases hv : readValue body.data with
    | none => simp
    | some v =>
      by_cases hst : storableInCurrency v = true
      · simp [hst]
      · simp [hst]

/-- A bid sent as a number and a `USDBRL` member sent as a number are decode
errors in the server, a `USDBRL` object that holds other fields only is
accepted with the empty quote, and a body that is not JSON is a decode error
in the client. -/
theorem fetchBid_decode_contract_witness :
    Context.background.err (0 + 0 + 0) = none ∧
    (Server.fetchBid Context.background 0 (Upstream.answers 0
      { status := 200, body := "\x7b\"USDBRL\":\x7b\"bid\":5.43\x7d\x7d", bodyAfter := 0, bodyFault := none })).result =
      Except.error (FetchError.decode JSONError.mismatch) ∧
    (Server.fetchBid Context.background 0 (Upstream.answers 0
      { status := 200, body := "\x7b\"USDBRL\":5\x7d", bodyAfter := 0, bodyFault := none })).result =
      Except.error (FetchError.decode JSONError.mismatch) ∧
    (Server.fetchBid Context.background 0 (Upstream.answers 0
      { status := 200, body := "\x7b\"USDBRL\":\x7b\"ask\":\"5.44\"\x7d\x7d", bodyAfter := 0, bodyFault := none })).result = Except.ok "" ∧
    (Client.fetchBid Context.background 0 (Upstream.answers 0
      { status := 200, body := "<html>", bodyAfter := 0, bodyFault := none })).result =
      Except.error (FetchError.decode JSONError.malformed) :=
  ⟨by decide,
    (fetchBid_decode_contract Context.background 0 0 0
      "\x7b\"USDBRL\":\x7b\"bid\":5.43\x7d\x7d" (by decide)).2.2.2.2.1
      [("USDBRL".data, JSON.obj [("bid".data, JSON.num "5.43".data)])]
      [("bid".data, JSON.num "5.43".data)] "USDBRL".data "bid".data (JSON.num "5.43".data)
      (by rfl) (by simp) (by decide) (by simp) (by decide) rfl,
    (fetchBid_decode_contract Context.background 0 0 0 "\x7b\"USDBRL\":5\x7d"
      (by decide)).2.2.2.1
      [("USDBRL".data, JSON.num "5".data)] "USDBRL".data (JSON.num "5".data)
      (by rfl) (by simp) (by decide) (by simp) (by simp),
    (fetchBid_decode_contract Context.background 0 0 0
      "\x7b\"USDBRL\":\x7b\"ask\":\"5.44\"\x7d\x7d" (by decide)).2.2.2.2.2.2.1
      (JSON.obj [("USDBRL".data, JSON.obj [("ask".data, JSON.str "5.44".data)])])
      (by rfl) (by decide) (by
        intro ms k ims k2 s hv hk hm hk2
        simp only [JSON.obj.injEq] at hv
        subst hv
        simp at hk
        obtain ⟨rfl, rfl⟩ := hk
        simp at hk2
        obtain ⟨rfl, rfl⟩ := hk2
        decide),
    ((fetchBid_decode_contract Context.background 0 0 0 "<html>" (by decide)).1 (by rfl)).2⟩

/-! ## C7: the wire between Responder and client -/

/-- C7. For every bid, the client's decoder reads the body `respondWithJSON`
writes for it back to exactly that bid, and so does the client's `fetchBid`
when that response reaches it, body and all, before its context is done. -/
theorem wire_round_trip (bid : String) :
    (Server.respondWithJSON 200 bid).status = 200 ∧
    decodeCurrencyResponse (Server.respondWithJSON 200 bid).body = Except.ok { Bid := bid } ∧
    ∀ (ctx : Context) (now after late : Nat), ctx.err (now + after + late) = none →
      (Client.fetchBid ctx now (Upstream.answers after
        { status := (Server.respondWithJSON 200 bid).status
          body := (Server.respondWithJSON 200 bid).body
          bodyAfter := late
          bodyFault := none })).result = Except.ok bid := by
  have hbody : (Server.respondWithJSON 200 bid) =
      { status := 200, header := [("Content-Type", "application/json")]
        body := String.mk ('{' :: '"' :: 'b' :: 'i' :: 'd' :: '"' :: ':' :: '"' ::
          (bid.data.flatMap escapeChar ++ ['"', '}'])) } := by
    simp [Server.respondWithJSON, marshalBid_data]
  have hdec : decodeCurrencyResponse (Server.respondWithJSON 200 bid).body =
      Except.ok { Bid := bid } := by
    rw [hbody]
    simp only [decodeCurrencyResponse, readValue_marshalBid]
    simp [storeCurrency, storeCurrencyMember, fieldMatches]
  refine ⟨by rw [hbody], hdec, ?_⟩
  intro ctx now after late hopen
  have hst : (Server.respondWithJSON 200 bid).status = 200 := by rw [hbody]
  rw [hst, client_fetchBid_of_open ctx now after late _ hopen, hdec]

/-! ## C8: the file the client writes -/

/-- C8. When `saveToFile` returns no error, the file `cotacao.txt` holds
`Dólar: `, the bid and a line feed, and nothing else, whatever it held before;
no other file is changed. -/
theorem saveToFile_content (createFault : Option String) (writeFault : Option (Nat × String))
    (bid : String) (fs : Client.Files)
    (h : (Client.saveToFile createFault writeFault bid fs).1 = none) :
    (Client.saveToFile createFault writeFault bid fs).2 "cotacao.txt" =
      some ("Dólar: " ++ bid ++ "\n") ∧
    ∀ name, name ≠ "cotacao.txt" →
      (Client.saveToFile createFault writeFault bid fs).2 name = fs name := by
  cases createFault with
  | some e => simp [Client.saveToFile] at h
  | none =>
    cases writeFault with
    | some p => simp [Client.saveToFile] at h
    | none =>
      refine ⟨by simp [Client.saveToFile, Client.Files.put, Client.sinkFile], ?_⟩
      intro name hname
      simp [Client.saveToFile, Client.Files.put, Client.sinkFile, hname]

/-- Scenario D: the bid 5.43 over an older file. -/
theorem saveToFile_content_witness :
    (Client.saveToFile none none "5.43" oldFiles).1 = none ∧
    (Client.saveToFile none none "5.43" oldFiles).2 "cotacao.txt" = some "Dólar: 5.43\n" :=
  ⟨by decide, (saveToFile_content none none "5.43" oldFiles (by decide)).1⟩

/-! ## C9: a failed fetch in the client -/

/-- C9. Whenever `fetchBid` returns an error, whatever its cause, the client
exits with code 1 without calling `saveToFile`: every file is as it was, and
nothing is printed on standard output. -/
theorem main_fetch_error (w : Client.World) (fs : Client.Files) (err : FetchError)
    (h : (Client.fetchBid (withTimeout Context.background w.now Client.timeoutMaxResponseAPI)
      w.now w.upstream).result = Except.error err) :
    (Client.main w fs).code = 1 ∧
    (Client.main w fs).savedToFile = false ∧
    (Client.main w fs).files = fs ∧
    (Client.main w fs).stdout = [] ∧
    (Client.main w fs).log.getLast? =
      some ("error getting quote: " ++ Client.errorText w.libText err) := by
  simp [Client.main, h]

/-- Scenario E leaves the older file as it is. -/
theorem main_fetch_error_witness :
    (Client.fetchBid (withTimeout Context.background scenarioE.now Client.timeoutMaxResponseAPI)
      scenarioE.now scenarioE.upstream).result =
      Except.error (FetchError.transport
        "Get \"http://localhost:8080/cotacao\": context deadline exceeded") ∧
    (Client.main scenarioE oldFiles).code = 1 ∧
    (Client.main scenarioE oldFiles).files = oldFiles ∧
    (Client.main scenarioE oldFiles).stdout = [] :=
  ⟨by decide,
    (main_fetch_error scenarioE oldFiles
      (FetchError.transport "Get \"http://localhost:8080/cotacao\": context deadline exceeded")
      (by decide)).1,
    (main_fetch_error scenarioE oldFiles
      (FetchError.transport "Get \"http://localhost:8080/cotacao\": context deadline exceeded")
      (by decide)).2.2.1,
    (main_fetch_error scenarioE oldFiles
      (FetchError.transport "Get \"http://localhost:8080/cotacao\": context deadline exceeded")
      (by decide)).2.2.2.1⟩

/-! ## C10: reading a bid back from the sink -/

end CotacaoAPI
